import Mathlib

/-!
Shallow embedding of the coin-selection and balancing core of
`cardano_clusterlib/txtools.py` (functions `_organize_tx_ins_outs_by_coin`,
`_organize_utxos_by_id`, `_organize_utxos_by_coin_and_id`, `_get_usable_utxos`,
`_pick_coins_from_already_selected_utxos`, `_pick_utxos_with_defragmentation`,
`_select_utxos_per_coin`, `_select_utxos`, `_balance_txouts`, `_get_tx_ins_outs`).

Modelling conventions:
* Python `dict[str, V]` is modelled as an insertion-ordered association list
  `SDict V := List (String × V)`; assignment updates a present key in place
  and appends an absent key, matching CPython dict semantics.
* Python `set[str]` is modelled as a duplicate-free `List String` iterated in
  insertion order.  CPython iterates sets in a hash-dependent order; every
  claim settled below is insensitive to the particular deterministic order
  chosen (it only feeds tie-breaking of which UTxOs get picked first).
* `raise` (both `AssertionError` and `exceptions.CLIError`) is modelled as
  `Except.error` carrying the message; `LOGGER.error` calls of the balancer
  are modelled as returned `ShortfallLog` data (the code keeps executing
  after them, and whether they are a raise or a log is exactly what claim C1
  is about).  The static prefix of each Python message is kept.
* Machine integers: all the amounts are Python `int`s (unbounded), modelled
  as `Int`.
-/

/-- Modelled from the spec: `consts.DEFAULT_COIN` lives in `consts.py`, which
is not part of the provided sources.  The spec calls it the network's base
asset, "the fee-paying unit"; its concrete string value is irrelevant to every
claim, only its distinguishedness matters. -/
def DEFAULT_COIN : String := "lovelace"

/-- Modelled from the spec: `structs.TxOut` lives in `structs.py`, which is
not part of the provided sources.  The spec's RequestedOutput: destination
address, asset id (`coin`), signed amount with `-1` as the send-all sentinel.
Only the fields read by `txtools.py` are modelled. -/
structure TxOut where
  address : String
  amount : Int
  coin : String
deriving DecidableEq, Repr

/-- Modelled from the spec: `structs.UTXOData` lives in `structs.py`, which is
not part of the provided sources.  The spec's UnspentOutput: identity =
(transaction hash, output index), one asset row per record (`coin`/`amount`),
owner address, optional datum-lock markers.  Python's falsy `None`/`""` datum
fields are modelled as the empty string.  Only the fields read by
`txtools.py` are modelled. -/
structure UTXOData where
  utxo_hash : String
  utxo_ix : Nat
  amount : Int
  address : String
  coin : String
  datum_hash : String
  inline_datum_hash : String
deriving DecidableEq, Repr

/-- One `LOGGER.error` emission of `_balance_txouts`: the coin it concerns and
the two totals of its message.  (The Python message for the base coin does not
actually name the coin; the coin field here records which loop iteration
emitted the log.) -/
structure ShortfallLog where
  coin : String
  available : Int
  needed : Int
deriving DecidableEq, Repr

/-- Python `dict[str, V]` as an insertion-ordered association list. -/
abbrev SDict (V : Type) : Type := List (String × V)

/-- `d.get(k)` of a Python dict (first entry wins; the construction below
keeps keys unique, as Python dicts do). -/
def sdictGet {V : Type} (d : SDict V) (k : String) : Option V :=
  match d with
  | [] => none
  | p :: rest => if p.1 == k then some p.2 else sdictGet rest k

/-- `d[k] = v` of a Python dict: update a present key in place, append an
absent one. -/
def sdictSet {V : Type} (d : SDict V) (k : String) (v : V) : SDict V :=
  match d with
  | [] => [(k, v)]
  | p :: rest => if p.1 == k then (k, v) :: rest else p :: sdictSet rest k v

/-- The UTxO ID string `f"{rec.utxo_hash}#{rec.utxo_ix}"`. -/
def utxoId (r : UTXOData) : String :=
  r.utxo_hash ++ "#" ++ toString r.utxo_ix

/-- Loop body shared by `_organize_tx_ins_outs_by_coin` and
`_organize_utxos_by_id`: append the row to its bucket, creating the bucket
when absent. -/
def organizeStep {α : Type} (key : α → String) (db : SDict (List α)) (rec : α) :
    SDict (List α) :=
  match sdictGet db (key rec) with
  | none => sdictSet db (key rec) [rec]
  | some l => sdictSet db (key rec) (l ++ [rec])

/-- Common body of the grouping helpers of `txtools.py`: fold the rows into a
dict of buckets keyed by `key`. -/
def organize_by_key {α : Type} (key : α → String) (tx_list : List α) :
    SDict (List α) :=
  tx_list.foldl (organizeStep key) []

/-- `_organize_tx_ins_outs_by_coin` applied to a list of `TxOut`. -/
def organize_tx_ins_outs_by_coin (tx_list : List TxOut) : SDict (List TxOut) :=
  organize_by_key (fun r => r.coin) tx_list

/-- `_organize_tx_ins_outs_by_coin` applied to a list of `UTXOData` (the same
Python function serves both record types). -/
def organize_txins_by_coin (tx_list : List UTXOData) : SDict (List UTXOData) :=
  organize_by_key (fun r => r.coin) tx_list

/-- `_organize_utxos_by_id`. -/
def organize_utxos_by_id (tx_list : List UTXOData) : SDict (List UTXOData) :=
  organize_by_key utxoId tx_list

/-- Loop body of `_organize_utxos_by_coin_and_id`.  Note the inner assignment
`db_rec[utxo_id] = r.amount` overwrites a previous row with the same
(coin, id) pair. -/
def organizeCoinIdStep (db : SDict (SDict Int)) (r : UTXOData) :
    SDict (SDict Int) :=
  match sdictGet db r.coin with
  | none => sdictSet db r.coin [(utxoId r, r.amount)]
  | some db_rec => sdictSet db r.coin (sdictSet db_rec (utxoId r) r.amount)

/-- `_organize_utxos_by_coin_and_id`. -/
def organize_utxos_by_coin_and_id (tx_list : List UTXOData) :
    SDict (SDict Int) :=
  tx_list.foldl organizeCoinIdStep []

/-- `functools.reduce(lambda x, y: x + y.amount, txouts, 0)`. -/
def sumTxOuts (l : List TxOut) : Int :=
  l.foldl (fun x y => x + y.amount) 0

/-- `functools.reduce(lambda x, y: x + y.amount, utxos, 0)`. -/
def sumUtxos (l : List UTXOData) : Int :=
  l.foldl (fun x y => x + y.amount) 0

/-- Adding one element to a Python set (no-op when present, else append). -/
def setAdd (s : List String) (x : String) : List String :=
  if s.contains x then s else s ++ [x]

/-- `s.update(t)` of a Python set. -/
def setUnion (s t : List String) : List String :=
  t.foldl setAdd s

/-- `set(a).union(b).union(c)` in first-appearance order. -/
def unionKeys (a b c : List String) : List String :=
  setUnion (setUnion (setUnion [] a) b) c

-- Basic SDict lemmas -------------------------------------------------------

theorem sdictGet_nil {V : Type} (k : String) :
    sdictGet ([] : SDict V) k = none := rfl

theorem sdictGet_set_self {V : Type} (d : SDict V) (k : String) (v : V) :
    sdictGet (sdictSet d k v) k = some v := by
  induction d with
  | nil => simp [sdictGet, sdictSet]
  | cons a d ih =>
    by_cases ha : a.1 == k
    · simp [sdictGet, sdictSet, ha]
    · simp [sdictGet, sdictSet, ha, ih]

theorem sdictGet_set_ne {V : Type} (d : SDict V) (k k' : String) (v : V)
    (hne : k ≠ k') : sdictGet (sdictSet d k v) k' = sdictGet d k' := by
  induction d with
  | nil => simp [sdictGet, sdictSet, hne]
  | cons a d ih =>
    by_cases ha : a.1 == k
    · have ha' : (a.1 == k') = false := by
        simp only [beq_iff_eq] at ha ⊢; simp [ha, hne]
      simp [sdictGet, sdictSet, ha, ha', hne]
    · by_cases ha' : a.1 == k'
      · simp [sdictGet, sdictSet, ha, ha']
      · simp [sdictGet, sdictSet, ha, ha', ih]

theorem sdictGet_isSome_iff_mem_keys {V : Type} (d : SDict V) (k : String) :
    (sdictGet d k).isSome ↔ k ∈ d.map (fun p => p.1) := by
  induction d with
  | nil => simp [sdictGet]
  | cons a d ih =>
    by_cases ha : a.1 == k
    · simp only [beq_iff_eq] at ha
      simp [sdictGet, ha]
    · simp only [beq_iff_eq] at ha
      simp [sdictGet, ha, ih, Ne.symm ha]

-- Characterization of the grouping helpers ---------------------------------

theorem organize_foldl_get_some {α : Type} (key : α → String) (l : List α)
    (db : SDict (List α)) (k : String) (b : List α)
    (hdb : sdictGet db k = some b) :
    sdictGet (l.foldl (organizeStep key) db) k
      = some (b ++ l.filter (fun r => key r == k)) := by
  induction l generalizing db b with
  | nil => simpa using hdb
  | cons r l ih =>
    simp only [List.foldl_cons]
    by_cases hk : key r == k
    · have hk' : key r = k := by simpa using hk
      have hstep : sdictGet (organizeStep key db r) k = some (b ++ [r]) := by
        unfold organizeStep
        rw [hk', hdb]
        exact sdictGet_set_self ..
      rw [ih _ _ hstep]
      simp [hk]
    · have hk' : key r ≠ k := by simpa using hk
      have hstep : sdictGet (organizeStep key db r) k = some b := by
        unfold organizeStep
        cases h : sdictGet db (key r) with
        | none => rw [sdictGet_set_ne _ _ _ _ hk']; exact hdb
        | some l0 => rw [sdictGet_set_ne _ _ _ _ hk']; exact hdb
      rw [ih _ _ hstep]
      simp [hk]

theorem organize_foldl_get_none {α : Type} (key : α → String) (l : List α)
    (db : SDict (List α)) (k : String)
    (hdb : sdictGet db k = none) :
    sdictGet (l.foldl (organizeStep key) db) k
      = (if (l.filter (fun r => key r == k)).isEmpty then none
         else some (l.filter (fun r => key r == k))) := by
  induction l generalizing db with
  | nil => simpa using hdb
  | cons r l ih =>
    simp only [List.foldl_cons]
    by_cases hk : key r == k
    · have hk' : key r = k := by simpa using hk
      have hstep : sdictGet (organizeStep key db r) k = some [r] := by
        unfold organizeStep
        cases h : sdictGet db (key r) with
        | none => rw [hk']; exact sdictGet_set_self ..
        | some l0 => rw [hk'] at h; rw [hdb] at h; cases h
      rw [organize_foldl_get_some key l _ _ _ hstep]
      simp [hk]
    · have hk' : key r ≠ k := by simpa using hk
      have hstep : sdictGet (organizeStep key db r) k = none := by
        unfold organizeStep
        cases h : sdictGet db (key r) with
        | none => rw [sdictGet_set_ne _ _ _ _ hk']; exact hdb
        | some l0 => rw [sdictGet_set_ne _ _ _ _ hk']; exact hdb
      rw [ih _ hstep]
      simp [hk]

/-- The bucket of `organize_by_key` at key `k` holds exactly the rows whose
key is `k`, in order; an empty bucket is never created. -/
theorem organize_by_key_get {α : Type} (key : α → String) (l : List α)
    (k : String) :
    sdictGet (organize_by_key key l) k
      = (if (l.filter (fun r => key r == k)).isEmpty then none
         else some (l.filter (fun r => key r == k))) := by
  unfold organize_by_key
  exact organize_foldl_get_none key l [] k rfl

theorem organize_by_key_getD {α : Type} (key : α → String) (l : List α)
    (k : String) :
    (sdictGet (organize_by_key key l) k).getD []
      = l.filter (fun r => key r == k) := by
  rw [organize_by_key_get]
  by_cases h : (l.filter (fun r => key r == k)).isEmpty
  · simp [h, List.isEmpty_iff.mp h]
  · simp [h]

theorem organize_by_key_mem_keys {α : Type} (key : α → String) (l : List α)
    (k : String) :
    k ∈ (organize_by_key key l).map (fun p => p.1) ↔ ∃ r ∈ l, key r = k := by
  rw [← sdictGet_isSome_iff_mem_keys, organize_by_key_get]
  constructor
  · intro hs
    by_cases h : (l.filter (fun r => key r == k)).isEmpty
    · rw [if_pos h] at hs; simp at hs
    · have hne : l.filter (fun r => key r == k) ≠ [] :=
        fun hnil => h (by simp [hnil])
      obtain ⟨r, hr⟩ := List.exists_mem_of_ne_nil _ hne
      rw [List.mem_filter] at hr
      exact ⟨r, hr.1, by simpa using hr.2⟩
  · rintro ⟨r, hr, hk⟩
    have hmem : r ∈ l.filter (fun r => key r == k) :=
      List.mem_filter.mpr ⟨hr, by simpa using hk⟩
    have h : ¬((l.filter (fun r => key r == k)).isEmpty = true) := by
      intro hemp
      rw [List.isEmpty_iff.mp hemp] at hmem
      simp at hmem
    rw [if_neg h]
    simp

/-- Two-level lookup `db[coin][uid]` used to state properties of
`organize_utxos_by_coin_and_id`. -/
def sdictGet2 (db : SDict (SDict Int)) (c uid : String) : Option Int :=
  (sdictGet db c).bind (fun rec => sdictGet rec uid)

theorem organizeCoinIdStep_get2 (db : SDict (SDict Int)) (r : UTXOData)
    (c uid : String) :
    sdictGet2 (organizeCoinIdStep db r) c uid
      = if r.coin == c && utxoId r == uid then some r.amount
        else sdictGet2 db c uid := by
  by_cases hc : r.coin = c
  · subst hc
    unfold organizeCoinIdStep sdictGet2
    cases hdb : sdictGet db r.coin with
    | none =>
      rw [sdictGet_set_self, Option.some_bind]
      by_cases hu : utxoId r = uid
      · subst hu; simp [sdictGet]
      · have hu' : (utxoId r == uid) = false := by simpa using hu
        simp [sdictGet, hu', hdb]
    | some db_rec =>
      rw [sdictGet_set_self, Option.some_bind]
      by_cases hu : utxoId r = uid
      · subst hu; simp [sdictGet_set_self]
      · rw [sdictGet_set_ne _ _ _ _ hu]
        have hu' : (utxoId r == uid) = false := by simpa using hu
        simp [hu', hdb]
  · unfold organizeCoinIdStep sdictGet2
    have hc' : (r.coin == c) = false := by simpa using hc
    cases hdb : sdictGet db r.coin with
    | none => rw [sdictGet_set_ne _ _ _ _ hc]; simp [hc']
    | some db_rec => rw [sdictGet_set_ne _ _ _ _ hc]; simp [hc']

theorem organizeCoinId_foldl_get2 (l : List UTXOData) (db : SDict (SDict Int))
    (c uid : String) :
    sdictGet2 (l.foldl organizeCoinIdStep db) c uid
      = (l.filter (fun r => r.coin == c && utxoId r == uid)).foldl
          (fun _ r => some r.amount) (sdictGet2 db c uid) := by
  induction l generalizing db with
  | nil => rfl
  | cons r l ih =>
    simp only [List.foldl_cons]
    rw [ih]
    by_cases hm : (r.coin == c && utxoId r == uid) = true
    · rw [organizeCoinIdStep_get2, if_pos hm]
      simp [hm]
    · rw [organizeCoinIdStep_get2, if_neg hm]
      simp [hm]

theorem foldl_replace_amount (l : List UTXOData) :
    ∀ init : Option Int,
      l.foldl (fun _ r => some r.amount) init
        = match l.getLast? with
          | none => init
          | some r => some r.amount := by
  induction l with
  | nil => intro init; rfl
  | cons a l ih =>
    intro init
    simp only [List.foldl_cons]
    rw [ih (some a.amount)]
    cases l with
    | nil => rfl
    | cons b t =>
      rw [List.getLast?_cons_cons]
      cases h : (b :: t).getLast? with
      | none => rw [List.getLast?_eq_none_iff] at h; cases h
      | some x => rfl

/-- The amount stored by `_organize_utxos_by_coin_and_id` at a (coin, id) pair
is the amount of the LAST row of the input list with that coin and id: earlier
duplicate rows are overwritten. -/
theorem organize_utxos_by_coin_and_id_get2 (l : List UTXOData)
    (c uid : String) :
    sdictGet2 (organize_utxos_by_coin_and_id l) c uid
      = ((l.filter (fun r => r.coin == c && utxoId r == uid)).getLast?).map
          (fun r => r.amount) := by
  unfold organize_utxos_by_coin_and_id
  rw [organizeCoinId_foldl_get2, foldl_replace_amount]
  cases hl : (l.filter (fun r => r.coin == c && utxoId r == uid)).getLast? with
  | none => rfl
  | some r => rfl

theorem organizeCoinIdStep_get_none (db : SDict (SDict Int)) (r : UTXOData)
    (c : String) :
    sdictGet (organizeCoinIdStep db r) c = none
      ↔ (sdictGet db c = none ∧ r.coin ≠ c) := by
  by_cases hc : r.coin = c
  · subst hc
    unfold organizeCoinIdStep
    cases hdb : sdictGet db r.coin with
    | none => rw [sdictGet_set_self]; simp
    | some db_rec => rw [sdictGet_set_self]; simp [hdb]
  · unfold organizeCoinIdStep
    cases hdb : sdictGet db r.coin with
    | none => rw [sdictGet_set_ne _ _ _ _ hc]; simp [hc]
    | some db_rec => rw [sdictGet_set_ne _ _ _ _ hc]; simp [hc]

theorem organizeCoinId_foldl_get_none (l : List UTXOData)
    (db : SDict (SDict Int)) (c : String) :
    sdictGet (l.foldl organizeCoinIdStep db) c = none
      ↔ (sdictGet db c = none ∧ ∀ r ∈ l, r.coin ≠ c) := by
  induction l generalizing db with
  | nil => simp
  | cons r l ih =>
    simp only [List.foldl_cons]
    rw [ih, organizeCoinIdStep_get_none]
    constructor
    · rintro ⟨⟨h1, h2⟩, h3⟩
      refine ⟨h1, ?_⟩
      intro s hs
      rcases List.mem_cons.mp hs with hs | hs
      · subst hs; exact h2
      · exact h3 s hs
    · rintro ⟨h1, h2⟩
      exact ⟨⟨h1, h2 r (by simp)⟩, fun s hs => h2 s (by simp [hs])⟩

/-- A coin key is absent from `_organize_utxos_by_coin_and_id` exactly when no
input row carries that coin. -/
theorem organize_utxos_by_coin_and_id_get_none (l : List UTXOData)
    (c : String) :
    sdictGet (organize_utxos_by_coin_and_id l) c = none
      ↔ ∀ r ∈ l, r.coin ≠ c := by
  unfold organize_utxos_by_coin_and_id
  rw [organizeCoinId_foldl_get_none]
  simp [sdictGet]

-- Set lemmas ----------------------------------------------------------------

theorem contains_eq_mem (s : List String) (x : String) :
    s.contains x = true ↔ x ∈ s := by
  simp [List.contains_iff_exists_mem_beq]

theorem mem_setAdd (s : List String) (x y : String) :
    y ∈ setAdd s x ↔ y ∈ s ∨ y = x := by
  unfold setAdd
  by_cases h : s.contains x
  · rw [if_pos h]
    constructor
    · exact Or.inl
    · rintro (hy | rfl)
      · exact hy
      · exact (contains_eq_mem s y).mp h
  · rw [if_neg h]; simp

theorem setAdd_nodup (s : List String) (x : String) (h : s.Nodup) :
    (setAdd s x).Nodup := by
  unfold setAdd
  by_cases hc : s.contains x
  · rw [if_pos hc]; exact h
  · rw [if_neg hc]
    rw [List.nodup_append]
    refine ⟨h, List.nodup_singleton x, ?_⟩
    intro a ha hx
    rw [List.mem_singleton] at hx
    subst hx
    exact hc ((contains_eq_mem s a).mpr ha)

theorem mem_setUnion (s t : List String) (y : String) :
    y ∈ setUnion s t ↔ y ∈ s ∨ y ∈ t := by
  induction t generalizing s with
  | nil => simp [setUnion]
  | cons a t ih =>
    unfold setUnion at *
    simp only [List.foldl_cons]
    rw [ih]
    rw [mem_setAdd]
    constructor
    · rintro ((h | h) | h)
      · exact Or.inl h
      · exact Or.inr (by simp [h])
      · exact Or.inr (by simp [h])
    · rintro (h | h)
      · exact Or.inl (Or.inl h)
      · rcases List.mem_cons.mp h with h | h
        · exact Or.inl (Or.inr h)
        · exact Or.inr h

theorem setUnion_nodup (s t : List String) (h : s.Nodup) :
    (setUnion s t).Nodup := by
  induction t generalizing s with
  | nil => exact h
  | cons a t ih =>
    unfold setUnion at *
    simp only [List.foldl_cons]
    exact ih _ (setAdd_nodup s a h)

theorem unionKeys_nodup (a b c : List String) : (unionKeys a b c).Nodup := by
  unfold unionKeys
  exact setUnion_nodup _ _ (setUnion_nodup _ _ (setUnion_nodup _ _ List.nodup_nil))

theorem mem_unionKeys (a b c : List String) (y : String) :
    y ∈ unionKeys a b c ↔ y ∈ a ∨ y ∈ b ∨ y ∈ c := by
  unfold unionKeys
  rw [mem_setUnion, mem_setUnion, mem_setUnion]
  simp [or_assoc]

-- Sum lemmas ----------------------------------------------------------------

theorem sumTxOuts_shift (l : List TxOut) :
    ∀ x : Int, l.foldl (fun a r => a + r.amount) x = x + sumTxOuts l := by
  induction l with
  | nil => intro x; simp [sumTxOuts]
  | cons r l ih =>
    intro x
    show l.foldl (fun a r => a + r.amount) (x + r.amount) = x + sumTxOuts (r :: l)
    have h2 : sumTxOuts (r :: l) = (0 + r.amount) + sumTxOuts l := by
      show l.foldl (fun a r => a + r.amount) (0 + r.amount)
          = (0 + r.amount) + sumTxOuts l
      exact ih (0 + r.amount)
    rw [ih (x + r.amount), h2]
    ring

theorem sumTxOuts_nil : sumTxOuts [] = 0 := rfl

theorem sumTxOuts_cons (r : TxOut) (l : List TxOut) :
    sumTxOuts (r :: l) = r.amount + sumTxOuts l := by
  show l.foldl (fun a r => a + r.amount) (0 + r.amount) = r.amount + sumTxOuts l
  rw [sumTxOuts_shift l (0 + r.amount)]
  ring

theorem sumTxOuts_append (l m : List TxOut) :
    sumTxOuts (l ++ m) = sumTxOuts l + sumTxOuts m := by
  induction l with
  | nil => simp [sumTxOuts_nil]
  | cons r l ih => simp only [List.cons_append, sumTxOuts_cons, ih]; ring

theorem sumUtxos_shift (l : List UTXOData) :
    ∀ x : Int, l.foldl (fun a r => a + r.amount) x = x + sumUtxos l := by
  induction l with
  | nil => intro x; simp [sumUtxos]
  | cons r l ih =>
    intro x
    show l.foldl (fun a r => a + r.amount) (x + r.amount) = x + sumUtxos (r :: l)
    have h2 : sumUtxos (r :: l) = (0 + r.amount) + sumUtxos l := by
      show l.foldl (fun a r => a + r.amount) (0 + r.amount)
          = (0 + r.amount) + sumUtxos l
      exact ih (0 + r.amount)
    rw [ih (x + r.amount), h2]
    ring

theorem sumUtxos_cons (r : UTXOData) (l : List UTXOData) :
    sumUtxos (r :: l) = r.amount + sumUtxos l := by
  show l.foldl (fun a r => a + r.amount) (0 + r.amount) = r.amount + sumUtxos l
  rw [sumUtxos_shift l (0 + r.amount)]
  ring

theorem sumUtxos_append (l m : List UTXOData) :
    sumUtxos (l ++ m) = sumUtxos l + sumUtxos m := by
  induction l with
  | nil => simp [sumUtxos]
  | cons r l ih => simp only [List.cons_append, sumUtxos_cons, ih]; ring

-- Selection Engine ----------------------------------------------------------

/-- Loop of `_pick_coins_from_already_selected_utxos`: walk the already
selected UTxO IDs, accumulate their holdings of the current coin, and stop as
soon as the exact target or the buffered target is reached.  Returns the
accumulated amount and the met flag (the Python for/else). -/
def pick_coins_loop (coin_txins : SDict Int) (target_amount target_with_change : Int) :
    List String → Int → Int × Bool
  | [], acc => (acc, false)
  | utxo_id :: rest, acc =>
    match sdictGet coin_txins utxo_id with
    | none => pick_coins_loop coin_txins target_amount target_with_change rest acc
    | some utxo_amount =>
      let acc2 := acc + utxo_amount
      if acc2 == target_amount then (acc2, true)
      else if acc2 ≥ target_with_change then (acc2, true)
      else pick_coins_loop coin_txins target_amount target_with_change rest acc2

/-- `_pick_coins_from_already_selected_utxos`.  The returned set of picked
UTxO IDs (`picked_utxos` in the source) is initialized empty and never added
to; the function contributes only the accumulated amount and the met flag. -/
def pick_coins_from_already_selected_utxos (coin_txins : SDict Int)
    (already_selected_utxos : List String)
    (target_amount target_with_change : Int) : List String × Int × Bool :=
  let r := pick_coins_loop coin_txins target_amount target_with_change
    already_selected_utxos 0
  ([], r.1, r.2)

/-- Stable insertion into a list sorted ascending by amount (equal amounts:
the earlier element stays first, like Python's stable `sorted`). -/
def insertSorted (x : String × Int) : List (String × Int) → List (String × Int)
  | [] => [x]
  | y :: ys => if x.2 ≤ y.2 then x :: y :: ys else y :: insertSorted x ys

/-- `sorted(utxos, key=amount)`: stable ascending sort by amount. -/
def sortByAmount : List (String × Int) → List (String × Int)
  | [] => []
  | x :: xs => insertSorted x (sortByAmount xs)

/-- Step 1 of `_pick_utxos_with_defragmentation`: add the (up to 10) smallest
UTxOs one by one, stopping the moment the exact target or the buffered target
is reached.  `Sum.inl` is the early return, `Sum.inr` the fall-through state. -/
def defrag_step1 (target_amount target_with_change : Int) :
    List (String × Int) → List String → Int
      → (List String × Int × Bool) ⊕ (List String × Int)
  | [], picked, acc => Sum.inr (picked, acc)
  | e :: rest, picked, acc =>
    let acc2 := acc + e.2
    let picked2 := picked ++ [e.1]
    if acc2 == target_amount then Sum.inl (picked2, acc2, true)
    else if acc2 ≥ target_with_change then Sum.inl (picked2, acc2, true)
    else defrag_step1 target_amount target_with_change rest picked2 acc2

/-- The `min(..., key=lambda i: abs(amount - remaining))` of step 2: return
the first candidate (in list order, i.e. ascending-amount order) minimizing
the distance to the remaining amount, together with the list without it. -/
def pickClosest (remaining_amount : Int) :
    List (String × Int) → Option ((String × Int) × List (String × Int))
  | [] => none
  | x :: xs =>
    match pickClosest remaining_amount xs with
    | none => some (x, [])
    | some (b, rest) =>
      if (x.2 - remaining_amount).natAbs ≤ (b.2 - remaining_amount).natAbs then
        some (x, xs)
      else some (b, x :: rest)

/-- Step 2 of `_pick_utxos_with_defragmentation` (the `while` loop): repeat
picking the still-unselected candidate closest to the remaining need until the
exact target or the buffered target is reached or candidates run out.  The
loop consumes exactly one candidate per iteration, so it is structured over a
counter that starts at (and always equals) the number of remaining
candidates; the counter-zero branch coincides with the
no-candidates-remaining branch of the source. -/
def defrag_step2_go (target_amount target_with_change : Int) :
    Nat → List String → Int → List (String × Int) → List String × Int × Bool
  | 0, picked, acc, _ =>
    if acc < target_with_change then
      if acc == target_amount then (picked, acc, true) else (picked, acc, false)
    else (picked, acc, true)
  | n + 1, picked, acc, remaining =>
    if acc < target_with_change then
      if acc == target_amount then (picked, acc, true)
      else
        let remaining_amount :=
          if acc > target_amount then target_with_change - acc
          else target_amount - acc
        match pickClosest remaining_amount remaining with
        | none => (picked, acc, false)
        | some (e, rest) =>
          defrag_step2_go target_amount target_with_change n
            (picked ++ [e.1]) (acc + e.2) rest
    else (picked, acc, true)

/-- `_pick_utxos_with_defragmentation`. -/
def pick_utxos_with_defragmentation (utxos : List (String × Int))
    (target_amount target_with_change accumulated_amount : Int) :
    List String × Int × Bool :=
  let sorted_utxos := sortByAmount utxos
  match defrag_step1 target_amount target_with_change (sorted_utxos.take 10)
      [] accumulated_amount with
  | Sum.inl r => r
  | Sum.inr (picked, acc) =>
    defrag_step2_go target_amount target_with_change
      (sorted_utxos.drop 10).length picked acc (sorted_utxos.drop 10)

/-- `_select_utxos_per_coin`.  The `coin` argument is used by the source only
in the warning log line for an unmet target, which has no effect on the
returned set. -/
def select_utxos_per_coin (coin_txins : SDict Int) (coin : String)
    (target_amount target_with_change : Int)
    (already_selected_utxos : List String) : List String :=
  let r := pick_coins_from_already_selected_utxos coin_txins
    already_selected_utxos target_amount target_with_change
  let selected_utxos := r.1
  let accumulated_amount := r.2.1
  let target_met := r.2.2
  if !target_met then
    let ids_and_amounts := coin_txins.filter
      (fun p => !already_selected_utxos.contains p.1)
    let r2 := pick_utxos_with_defragmentation ids_and_amounts target_amount
      target_with_change accumulated_amount
    setUnion selected_utxos r2.1
  else selected_utxos

/-- Loop body of `_select_utxos` for one coin of the union. -/
def select_utxos_step (txins_by_coin_and_id : SDict (SDict Int))
    (txouts_passed_db : SDict (List TxOut)) (txouts_mint_db : SDict (List TxOut))
    (fee : Int) (withdrawals : List TxOut) (min_change_value : Int)
    (deposit : Int) (treasury_donation : Int)
    (utxo_ids : List String) (coin : String) : List String :=
  let coin_txins := (sdictGet txins_by_coin_and_id coin).getD []
  let coin_txouts := (sdictGet txouts_passed_db coin).getD []
  let total_output_amount := sumTxOuts coin_txouts
  if coin == DEFAULT_COIN then
    if coin_txouts.any (fun v => v.amount == -1) then
      setUnion utxo_ids (coin_txins.map (fun p => p.1))
    else
      let tx_fee := max 1 fee
      let funds_needed := total_output_amount + tx_fee + deposit + treasury_donation
      let total_withdrawals_amount := sumTxOuts withdrawals
      let input_funds_needed := max (funds_needed - total_withdrawals_amount) tx_fee
      let target_with_change := input_funds_needed + min_change_value
      if input_funds_needed != 0 then
        setUnion utxo_ids (select_utxos_per_coin coin_txins coin
          input_funds_needed target_with_change utxo_ids)
      else utxo_ids
  else
    let coin_txouts_minted := (sdictGet txouts_mint_db coin).getD []
    let total_minted_amount := sumTxOuts coin_txouts_minted
    let input_funds_needed := total_output_amount - total_minted_amount
    let target_with_change := input_funds_needed
    if input_funds_needed != 0 then
      setUnion utxo_ids (select_utxos_per_coin coin_txins coin
        input_funds_needed target_with_change utxo_ids)
    else utxo_ids

/-- `_select_utxos`.  The union of coin keys is iterated in first-appearance
order (txins, then passed txouts, then minted txouts); the Python set has a
hash-dependent order instead, which only influences cross-coin reuse
tie-breaking. -/
def select_utxos (txins_by_coin_and_id : SDict (SDict Int))
    (txouts_passed_db : SDict (List TxOut)) (txouts_mint_db : SDict (List TxOut))
    (fee : Int) (withdrawals : List TxOut) (min_change_value : Int)
    (deposit : Int) (treasury_donation : Int) : List String :=
  let coins := unionKeys (txins_by_coin_and_id.map (fun p => p.1))
    (txouts_passed_db.map (fun p => p.1)) (txouts_mint_db.map (fun p => p.1))
  coins.foldl
    (select_utxos_step txins_by_coin_and_id txouts_passed_db txouts_mint_db
      fee withdrawals min_change_value deposit treasury_donation)
    []

-- Balancer ------------------------------------------------------------------

/-- Loop body of `_balance_txouts` for one coin: returns the synthesized
change outputs (zero or one) and the `LOGGER.error` emissions, or the
`AssertionError` on more than one send-all sentinel. -/
def balance_coin (change_address : String) (txins_db : SDict (List UTXOData))
    (txouts_passed_db : SDict (List TxOut)) (txouts_mint_db : SDict (List TxOut))
    (fee : Int) (withdrawals : List TxOut) (deposit : Int)
    (treasury_donation : Int) (coin : String) :
    Except String (List TxOut × List ShortfallLog) :=
  let coin_txins := (sdictGet txins_db coin).getD []
  let coin_txouts := (sdictGet txouts_passed_db coin).getD []
  let total_input_amount := sumUtxos coin_txins
  if coin == DEFAULT_COIN then
    -- the "-1" sentinel records; the first is popped and its address kept
    if (coin_txouts.filter (fun v => v.amount == -1)).length > 1 then
      Except.error "Cannot send all remaining funds to more than one address."
    else
      let max_address := (coin_txouts.find? (fun v => v.amount == -1)).map
        (fun v => v.address)
      let coin_txouts2 := coin_txouts.eraseP (fun v => v.amount == -1)
      let total_output_amount := sumTxOuts coin_txouts2
      let tx_fee := max 0 fee
      let total_withdrawals_amount := sumTxOuts withdrawals
      let funds_available := total_input_amount + total_withdrawals_amount
      let funds_needed := total_output_amount + tx_fee + deposit + treasury_donation
      let change := funds_available - funds_needed
      let logs := if change < 0 then
          [ShortfallLog.mk coin funds_available funds_needed] else []
      let outs := if change > 0 then
          [TxOut.mk (max_address.getD change_address) change coin] else []
      Except.ok (outs, logs)
  else
    let coin_txouts_minted := (sdictGet txouts_mint_db coin).getD []
    let total_output_amount := sumTxOuts coin_txouts
    let total_minted_amount := sumTxOuts coin_txouts_minted
    let funds_available := total_input_amount + total_minted_amount
    let change := funds_available - total_output_amount
    let logs := if change < 0 then
        [ShortfallLog.mk coin funds_available total_output_amount] else []
    let outs := if change > 0 then
        [TxOut.mk change_address change coin] else []
    Except.ok (outs, logs)

/-- The per-coin loop of `_balance_txouts`, threading the accumulated output
list and log list. -/
def balance_loop (change_address : String) (txins_db : SDict (List UTXOData))
    (txouts_passed_db : SDict (List TxOut)) (txouts_mint_db : SDict (List TxOut))
    (fee : Int) (withdrawals : List TxOut) (deposit : Int)
    (treasury_donation : Int) :
    List String → List TxOut × List ShortfallLog
      → Except String (List TxOut × List ShortfallLog)
  | [], acc => Except.ok acc
  | coin :: rest, acc =>
    match balance_coin change_address txins_db txouts_passed_db txouts_mint_db
        fee withdrawals deposit treasury_donation coin with
    | Except.error e => Except.error e
    | Except.ok (outs, logs) =>
      balance_loop change_address txins_db txouts_passed_db txouts_mint_db
        fee withdrawals deposit treasury_donation rest
        (acc.1 ++ outs, acc.2 ++ logs)

/-- `_balance_txouts`. -/
def balance_txouts (change_address : String) (txouts : List TxOut)
    (txins_db : SDict (List UTXOData)) (txouts_passed_db : SDict (List TxOut))
    (txouts_mint_db : SDict (List TxOut)) (fee : Int)
    (withdrawals : List TxOut) (deposit : Int) (treasury_donation : Int)
    (skip_asset_balancing : Bool) :
    Except String (List TxOut × List ShortfallLog) :=
  let burning_txouts := txouts.filter
    (fun r => r.amount < 0 && r.coin != DEFAULT_COIN)
  if !burning_txouts.isEmpty then
    Except.error "Token burning is not allowed in txouts"
  else
    let txouts_result := txouts.filter (fun r => r.amount > 0)
    if skip_asset_balancing then Except.ok (txouts_result, [])
    else
      let coins := unionKeys (txins_db.map (fun p => p.1))
        (txouts_passed_db.map (fun p => p.1)) (txouts_mint_db.map (fun p => p.1))
      balance_loop change_address txins_db txouts_passed_db txouts_mint_db
        fee withdrawals deposit treasury_donation coins (txouts_result, [])

-- Assembly Orchestrator -----------------------------------------------------

/-- Loop of `_get_usable_utxos`: state is (collected rows, seen ids,
matching-with-datum flag). -/
def get_usable_loop (txins_by_id : SDict (List UTXOData)) (coins : List String) :
    List UTXOData → List UTXOData → List String → Bool
      → List UTXOData × Bool
  | [], txins, _, matching_with_datum => (txins, matching_with_datum)
  | rec :: rest, txins, seen_ids, matching_with_datum =>
    let uid := utxoId rec
    if coins.contains rec.coin && !seen_ids.contains uid then
      if rec.datum_hash != "" || rec.inline_datum_hash != "" then
        get_usable_loop txins_by_id coins rest txins seen_ids true
      else
        get_usable_loop txins_by_id coins rest
          (txins ++ (sdictGet txins_by_id uid).getD [])
          (seen_ids ++ [uid]) matching_with_datum
    else get_usable_loop txins_by_id coins rest txins seen_ids matching_with_datum

/-- `_get_usable_utxos`. -/
def get_usable_utxos (address_utxos : List UTXOData) (coins : List String) :
    Except String (List UTXOData) :=
  let txins_by_id := organize_utxos_by_id address_utxos
  let st := get_usable_loop txins_by_id coins address_utxos [] [] false
  if st.1.isEmpty && st.2 then
    Except.error "The only matching UTxOs have datum."
  else Except.ok st.1

/-- `_get_tx_ins_outs`.  The external collaborators of the source
(`clusterlib_obj.g_query.get_utxo`, `get_tx_deposit`, `_min_change_value`)
are modelled as already-resolved arguments, as the spec prescribes:
`src_addr_utxos` is the (possibly empty) UTxO list of the source address,
`deposit` and `treasury_donation` the resolved amounts and `min_change_value`
the protocol dust threshold. -/
def get_tx_ins_outs (src_address : String) (txins : List UTXOData)
    (txouts : List TxOut) (fee : Int) (deposit : Int)
    (treasury_donation : Int) (withdrawals : List TxOut)
    (mint_txouts : List TxOut) (src_addr_utxos : List UTXOData)
    (min_change_value : Int) (skip_asset_balancing : Bool) :
    Except String (List UTXOData × List TxOut × List ShortfallLog) :=
  let txouts_passed_db := organize_tx_ins_outs_by_coin txouts
  let txouts_mint_db := organize_tx_ins_outs_by_coin mint_txouts
  let outcoins_all := unionKeys [DEFAULT_COIN]
    (txouts_mint_db.map (fun p => p.1)) (txouts_passed_db.map (fun p => p.1))
  let outcoins_passed := DEFAULT_COIN :: txouts_passed_db.map (fun p => p.1)
  let txins_all_e : Except String (List UTXOData) :=
    if txins.isEmpty then
      if src_addr_utxos.isEmpty then
        Except.error "No UTxO returned for the source address."
      else get_usable_utxos src_addr_utxos outcoins_all
    else Except.ok txins
  match txins_all_e with
  | Except.error e => Except.error e
  | Except.ok txins_all =>
    if txins_all.isEmpty then Except.error "No input UTxO."
    else
      let txins_by_coin_and_id := organize_utxos_by_coin_and_id txins_all
      if !((outcoins_passed.filter
            (fun c => (sdictGet txouts_mint_db c).isNone)).all
          (fun c => (sdictGet txins_by_coin_and_id c).isSome)) then
        Except.error "Not all output coins are present in input UTxOs."
      else
        let pr : List UTXOData × SDict (List UTXOData) :=
          if !txins.isEmpty then (txins_all, organize_txins_by_coin txins_all)
          else
            let selected_utxo_ids := select_utxos txins_by_coin_and_id
              txouts_passed_db txouts_mint_db fee withdrawals min_change_value
              deposit treasury_donation
            let txins_by_id := organize_utxos_by_id txins_all
            let txins_filtered := ((txins_by_id.filter
              (fun p => selected_utxo_ids.contains p.1)).map (fun p => p.2)).flatten
            (txins_filtered, organize_txins_by_coin txins_filtered)
        if pr.1.isEmpty then
          Except.error "Cannot build transaction, empty `txins`."
        else
          match balance_txouts src_address txouts pr.2 txouts_passed_db
              txouts_mint_db fee withdrawals deposit treasury_donation
              skip_asset_balancing with
          | Except.error e => Except.error e
          | Except.ok (touts, logs) => Except.ok (pr.1, touts, logs)

-- Selection phase result lemmas ---------------------------------------------

/-- If the reuse-phase loop reports the target met, the accumulated amount is
either exactly the target or at least the buffered target. -/
theorem pick_coins_loop_met (coin_txins : SDict Int) (ta twc : Int) :
    ∀ (ids : List String) (acc0 acc : Int),
      pick_coins_loop coin_txins ta twc ids acc0 = (acc, true) →
      acc = ta ∨ twc ≤ acc := by
  intro ids
  induction ids with
  | nil =>
    intro acc0 acc h
    simp only [pick_coins_loop, Prod.mk.injEq] at h
    exact absurd h.2 (by simp)
  | cons uid rest ih =>
    intro acc0 acc h
    rw [pick_coins_loop] at h
    cases hg : sdictGet coin_txins uid with
    | none =>
      rw [hg] at h
      exact ih _ _ h
    | some amt =>
      rw [hg] at h
      dsimp only at h
      by_cases h1 : (acc0 + amt == ta) = true
      · rw [if_pos h1] at h
        injection h with h2 h3
        left
        rw [← h2]
        exact beq_iff_eq.mp h1
      · rw [if_neg h1] at h
        by_cases h2 : acc0 + amt ≥ twc
        · rw [if_pos h2] at h
          injection h with h3 h4
          right
          rw [← h3]
          exact h2
        · rw [if_neg h2] at h
          exact ih _ _ h

/-- Step 1 of defragmentation only returns early with the met flag set, and
then the accumulated amount is exactly the target or at least the buffered
target. -/
theorem defrag_step1_met (ta twc : Int) :
    ∀ (es : List (String × Int)) (picked0 : List String) (acc0 : Int)
      (p : List String) (acc : Int) (m : Bool),
      defrag_step1 ta twc es picked0 acc0 = Sum.inl (p, acc, m) →
      m = true ∧ (acc = ta ∨ twc ≤ acc) := by
  intro es
  induction es with
  | nil => intro picked0 acc0 p acc m h; cases h
  | cons e rest ih =>
    intro picked0 acc0 p acc m h
    rw [defrag_step1] at h
    by_cases h1 : (acc0 + e.2 == ta) = true
    · rw [if_pos h1] at h
      injection h with h2
      injection h2 with h3 h4
      injection h4 with h5 h6
      exact ⟨h6.symm, Or.inl (by rw [← h5]; exact beq_iff_eq.mp h1)⟩
    · rw [if_neg h1] at h
      by_cases h2 : acc0 + e.2 ≥ twc
      · rw [if_pos h2] at h
        injection h with h3
        injection h3 with h4 h5
        injection h5 with h6 h7
        exact ⟨h7.symm, Or.inr (by rw [← h6]; exact h2)⟩
      · rw [if_neg h2] at h
        exact ih _ _ _ _ _ h

/-- Step 2 of defragmentation reports the target met only with the
accumulated amount exactly the target or at least the buffered target. -/
theorem defrag_step2_go_met (ta twc : Int) :
    ∀ (n : Nat) (picked0 : List String) (acc0 : Int)
      (remaining : List (String × Int)) (p : List String) (acc : Int),
      defrag_step2_go ta twc n picked0 acc0 remaining = (p, acc, true) →
      acc = ta ∨ twc ≤ acc := by
  intro n
  induction n with
  | zero =>
    intro picked0 acc0 remaining p acc h
    rw [defrag_step2_go] at h
    by_cases h1 : acc0 < twc
    · rw [if_pos h1] at h
      by_cases h2 : (acc0 == ta) = true
      · rw [if_pos h2] at h
        injection h with h3 h4
        injection h4 with h5
        left; rw [← h5]; exact beq_iff_eq.mp h2
      · rw [if_neg h2] at h
        injection h with h3 h4
        injection h4 with h5 h6
        cases h6
    · rw [if_neg h1] at h
      injection h with h3 h4
      injection h4 with h5
      right; rw [← h5]; exact le_of_not_lt h1
  | succ n ih =>
    intro picked0 acc0 remaining p acc h
    rw [defrag_step2_go] at h
    by_cases h1 : acc0 < twc
    · rw [if_pos h1] at h
      by_cases h2 : (acc0 == ta) = true
      · rw [if_pos h2] at h
        injection h with h3 h4
        injection h4 with h5
        left; rw [← h5]; exact beq_iff_eq.mp h2
      · rw [if_neg h2] at h
        simp only at h
        cases hc : pickClosest (if acc0 > ta then twc - acc0 else ta - acc0)
            remaining with
        | none =>
          rw [hc] at h
          injection h with h3 h4
          injection h4 with h5 h6
          cases h6
        | some er =>
          rw [hc] at h
          exact ih _ _ _ _ _ h
    · rw [if_neg h1] at h
      injection h with h3 h4
      injection h4 with h5
      right; rw [← h5]; exact le_of_not_lt h1

/-- `_pick_utxos_with_defragmentation` reports the target met only with the
accumulated amount exactly the target or at least the buffered target. -/
theorem pick_utxos_with_defragmentation_met (utxos : List (String × Int))
    (ta twc acc0 : Int) (p : List String) (acc : Int)
    (h : pick_utxos_with_defragmentation utxos ta twc acc0 = (p, acc, true)) :
    acc = ta ∨ twc ≤ acc := by
  unfold pick_utxos_with_defragmentation at h
  dsimp only at h
  cases h1 : defrag_step1 ta twc ((sortByAmount utxos).take 10) [] acc0 with
  | inl r =>
    rw [h1] at h
    dsimp only at h
    rw [h] at h1
    exact (defrag_step1_met ta twc _ _ _ _ _ _ h1).2
  | inr pr =>
    obtain ⟨pk, ac⟩ := pr
    rw [h1] at h
    dsimp only at h
    exact defrag_step2_go_met ta twc _ _ _ _ _ _ h

/-- The reuse phase reports the target met only with the accumulated amount
exactly the target or at least the buffered target. -/
theorem pick_coins_met (coin_txins : SDict Int) (ids : List String)
    (ta twc : Int) (s : List String) (acc : Int)
    (h : pick_coins_from_already_selected_utxos coin_txins ids ta twc
        = (s, acc, true)) :
    acc = ta ∨ twc ≤ acc := by
  unfold pick_coins_from_already_selected_utxos at h
  simp only [Prod.mk.injEq] at h
  have h2 := h.2
  apply pick_coins_loop_met coin_txins ta twc ids 0 acc
  cases hr : pick_coins_loop coin_txins ta twc ids 0 with
  | mk a b =>
    rw [hr] at h2
    simp only at h2
    rw [h2.1, h2.2]

-- Per-coin balancer totals (readings of the balance_coin computation) -------

/-- The requested-output bucket for a coin. -/
def coin_txouts_of (txouts_passed_db : SDict (List TxOut)) (coin : String) :
    List TxOut :=
  (sdictGet txouts_passed_db coin).getD []

/-- Number of send-all sentinel records among the requested base-coin
outputs. -/
def base_sentinel_count (txouts_passed_db : SDict (List TxOut)) : Nat :=
  ((coin_txouts_of txouts_passed_db DEFAULT_COIN).filter
    (fun v => v.amount == -1)).length

/-- The address of the first send-all sentinel record, if any. -/
def base_max_address (txouts_passed_db : SDict (List TxOut)) : Option String :=
  ((coin_txouts_of txouts_passed_db DEFAULT_COIN).find?
    (fun v => v.amount == -1)).map (fun v => v.address)

/-- `funds_available` as computed per coin by `_balance_txouts`. -/
def coin_funds_available (txins_db : SDict (List UTXOData))
    (txouts_mint_db : SDict (List TxOut)) (withdrawals : List TxOut)
    (coin : String) : Int :=
  if coin == DEFAULT_COIN then
    sumUtxos ((sdictGet txins_db coin).getD []) + sumTxOuts withdrawals
  else
    sumUtxos ((sdictGet txins_db coin).getD [])
      + sumTxOuts ((sdictGet txouts_mint_db coin).getD [])

/-- `funds_needed` (resp. `total_output_amount` for a non-base coin) as
computed per coin by `_balance_txouts`; for the base coin the first sentinel
record is removed first. -/
def coin_funds_needed (txouts_passed_db : SDict (List TxOut)) (fee : Int)
    (deposit : Int) (treasury_donation : Int) (coin : String) : Int :=
  if coin == DEFAULT_COIN then
    sumTxOuts ((coin_txouts_of txouts_passed_db coin).eraseP
        (fun v => v.amount == -1))
      + max 0 fee + deposit + treasury_donation
  else sumTxOuts (coin_txouts_of txouts_passed_db coin)

/-- The per-coin change computed by `_balance_txouts`. -/
def coin_change (txins_db : SDict (List UTXOData))
    (txouts_passed_db : SDict (List TxOut)) (txouts_mint_db : SDict (List TxOut))
    (fee : Int) (withdrawals : List TxOut) (deposit : Int)
    (treasury_donation : Int) (coin : String) : Int :=
  coin_funds_available txins_db txouts_mint_db withdrawals coin
    - coin_funds_needed txouts_passed_db fee deposit treasury_donation coin

/-- The change outputs `_balance_txouts` appends for one coin (one when the
change is positive, none otherwise). -/
def coin_change_txouts (change_address : String)
    (txins_db : SDict (List UTXOData)) (txouts_passed_db : SDict (List TxOut))
    (txouts_mint_db : SDict (List TxOut)) (fee : Int) (withdrawals : List TxOut)
    (deposit : Int) (treasury_donation : Int) (coin : String) : List TxOut :=
  if coin_change txins_db txouts_passed_db txouts_mint_db fee withdrawals
      deposit treasury_donation coin > 0 then
    [TxOut.mk
      (if coin == DEFAULT_COIN then
        (base_max_address txouts_passed_db).getD change_address
      else change_address)
      (coin_change txins_db txouts_passed_db txouts_mint_db fee withdrawals
        deposit treasury_donation coin)
      coin]
  else []

/-- The shortfall logs `_balance_txouts` emits for one coin (one when the
change is negative, none otherwise). -/
def coin_shortfall_logs (txins_db : SDict (List UTXOData))
    (txouts_passed_db : SDict (List TxOut)) (txouts_mint_db : SDict (List TxOut))
    (fee : Int) (withdrawals : List TxOut) (deposit : Int)
    (treasury_donation : Int) (coin : String) : List ShortfallLog :=
  if coin_change txins_db txouts_passed_db txouts_mint_db fee withdrawals
      deposit treasury_donation coin < 0 then
    [ShortfallLog.mk coin
      (coin_funds_available txins_db txouts_mint_db withdrawals coin)
      (coin_funds_needed txouts_passed_db fee deposit treasury_donation coin)]
  else []

/-- `balance_coin` never raises when the base coin carries at most one
sentinel, and then returns exactly the spec-level change outputs and logs. -/
theorem balance_coin_eq (change_address : String)
    (txins_db : SDict (List UTXOData)) (txouts_passed_db : SDict (List TxOut))
    (txouts_mint_db : SDict (List TxOut)) (fee : Int) (withdrawals : List TxOut)
    (deposit : Int) (treasury_donation : Int) (coin : String)
    (hs : coin = DEFAULT_COIN → base_sentinel_count txouts_passed_db ≤ 1) :
    balance_coin change_address txins_db txouts_passed_db txouts_mint_db fee
        withdrawals deposit treasury_donation coin
      = Except.ok
          (coin_change_txouts change_address txins_db txouts_passed_db
            txouts_mint_db fee withdrawals deposit treasury_donation coin,
           coin_shortfall_logs txins_db txouts_passed_db txouts_mint_db fee
            withdrawals deposit treasury_donation coin) := by
  by_cases hc : coin == DEFAULT_COIN
  · have hc' : coin = DEFAULT_COIN := by simpa using hc
    subst hc'
    have hcount : ¬((((sdictGet txouts_passed_db DEFAULT_COIN).getD []).filter
        (fun v => v.amount == -1)).length > 1) :=
      Nat.not_lt.mpr (by simpa [base_sentinel_count, coin_txouts_of] using hs rfl)
    simp only [balance_coin, coin_change_txouts, coin_shortfall_logs,
      coin_change, coin_funds_available, coin_funds_needed, base_max_address,
      coin_txouts_of, beq_self_eq_true, if_true, if_neg hcount]
  · have hc2 : (coin == DEFAULT_COIN) = false := by
      simpa using hc
    simp only [balance_coin, coin_change_txouts, coin_shortfall_logs,
      coin_change, coin_funds_available, coin_funds_needed, coin_txouts_of,
      hc2, Bool.false_eq_true, if_false]

/-- The balancer loop, when the base coin carries at most one sentinel,
returns the accumulated outputs extended with the per-coin change outputs and
the per-coin shortfall logs. -/
theorem balance_loop_eq (change_address : String)
    (txins_db : SDict (List UTXOData)) (txouts_passed_db : SDict (List TxOut))
    (txouts_mint_db : SDict (List TxOut)) (fee : Int) (withdrawals : List TxOut)
    (deposit : Int) (treasury_donation : Int) :
    ∀ (coins : List String) (acc : List TxOut × List ShortfallLog),
      (∀ c ∈ coins, c = DEFAULT_COIN → base_sentinel_count txouts_passed_db ≤ 1) →
      balance_loop change_address txins_db txouts_passed_db txouts_mint_db fee
          withdrawals deposit treasury_donation coins acc
        = Except.ok
            (acc.1 ++ (coins.map (coin_change_txouts change_address txins_db
                txouts_passed_db txouts_mint_db fee withdrawals deposit
                treasury_donation)).flatten,
             acc.2 ++ (coins.map (coin_shortfall_logs txins_db txouts_passed_db
                txouts_mint_db fee withdrawals deposit
                treasury_donation)).flatten) := by
  intro coins
  induction coins with
  | nil => intro acc h; simp [balance_loop]
  | cons c rest ih =>
    intro acc h
    rw [balance_loop]
    rw [balance_coin_eq change_address txins_db txouts_passed_db txouts_mint_db
      fee withdrawals deposit treasury_donation c (h c (by simp))]
    dsimp only
    rw [ih _ (fun d hd => h d (by simp [hd]))]
    simp

-- Filter/sum helpers for conservation ---------------------------------------

theorem coin_change_txouts_filter_ne (change_address : String)
    (txins_db : SDict (List UTXOData)) (txouts_passed_db : SDict (List TxOut))
    (txouts_mint_db : SDict (List TxOut)) (fee : Int) (withdrawals : List TxOut)
    (deposit : Int) (treasury_donation : Int) (c A : String) (hne : c ≠ A) :
    (coin_change_txouts change_address txins_db txouts_passed_db txouts_mint_db
        fee withdrawals deposit treasury_donation c).filter
      (fun o => o.coin == A) = [] := by
  unfold coin_change_txouts
  by_cases h : coin_change txins_db txouts_passed_db txouts_mint_db fee
      withdrawals deposit treasury_donation c > 0
  · rw [if_pos h]
    simp [hne]
  · rw [if_neg h]
    rfl

theorem coin_change_txouts_filter_self (change_address : String)
    (txins_db : SDict (List UTXOData)) (txouts_passed_db : SDict (List TxOut))
    (txouts_mint_db : SDict (List TxOut)) (fee : Int) (withdrawals : List TxOut)
    (deposit : Int) (treasury_donation : Int) (A : String) :
    (coin_change_txouts change_address txins_db txouts_passed_db txouts_mint_db
        fee withdrawals deposit treasury_donation A).filter
      (fun o => o.coin == A)
      = coin_change_txouts change_address txins_db txouts_passed_db
          txouts_mint_db fee withdrawals deposit treasury_donation A := by
  unfold coin_change_txouts
  by_cases h : coin_change txins_db txouts_passed_db txouts_mint_db fee
      withdrawals deposit treasury_donation A > 0
  · rw [if_pos h]
    simp
  · rw [if_neg h]
    rfl

theorem flatten_change_filter_not_mem (change_address : String)
    (txins_db : SDict (List UTXOData)) (txouts_passed_db : SDict (List TxOut))
    (txouts_mint_db : SDict (List TxOut)) (fee : Int) (withdrawals : List TxOut)
    (deposit : Int) (treasury_donation : Int) :
    ∀ (coins : List String) (A : String), A ∉ coins →
      ((coins.map (coin_change_txouts change_address txins_db txouts_passed_db
          txouts_mint_db fee withdrawals deposit
          treasury_donation)).flatten).filter (fun o => o.coin == A) = [] := by
  intro coins
  induction coins with
  | nil => intro A _; rfl
  | cons c rest ih =>
    intro A hA
    simp only [List.map_cons, List.flatten_cons, List.filter_append]
    rw [coin_change_txouts_filter_ne change_address txins_db txouts_passed_db
      txouts_mint_db fee withdrawals deposit treasury_donation c A
      (by intro hh; exact hA (by simp [hh]))]
    rw [ih A (fun hh => hA (by simp [hh]))]
    rfl

/-- In the concatenated per-coin change outputs, the rows of coin `A` are
exactly the single coin-`A` contribution (coin keys are iterated without
duplicates). -/
theorem flatten_change_filter (change_address : String)
    (txins_db : SDict (List UTXOData)) (txouts_passed_db : SDict (List TxOut))
    (txouts_mint_db : SDict (List TxOut)) (fee : Int) (withdrawals : List TxOut)
    (deposit : Int) (treasury_donation : Int) :
    ∀ (coins : List String) (A : String), A ∈ coins → coins.Nodup →
      ((coins.map (coin_change_txouts change_address txins_db txouts_passed_db
          txouts_mint_db fee withdrawals deposit
          treasury_donation)).flatten).filter (fun o => o.coin == A)
        = coin_change_txouts change_address txins_db txouts_passed_db
            txouts_mint_db fee withdrawals deposit treasury_donation A := by
  intro coins
  induction coins with
  | nil => intro A hA _; cases hA
  | cons c rest ih =>
    intro A hA hnd
    simp only [List.map_cons, List.flatten_cons, List.filter_append]
    rcases List.mem_cons.mp hA with hA1 | hA1
    · subst hA1
      rw [coin_change_txouts_filter_self]
      rw [flatten_change_filter_not_mem change_address txins_db txouts_passed_db
        txouts_mint_db fee withdrawals deposit treasury_donation rest A
        (List.nodup_cons.mp hnd).1]
      simp
    · have hcA : c ≠ A := by
        intro hh
        subst hh
        exact (List.nodup_cons.mp hnd).1 hA1
      rw [coin_change_txouts_filter_ne change_address txins_db txouts_passed_db
        txouts_mint_db fee withdrawals deposit treasury_donation c A hcA]
      rw [ih A hA1 (List.nodup_cons.mp hnd).2]
      rfl

theorem sumTxOuts_filter_pos_of_nonneg (l : List TxOut)
    (h : ∀ r ∈ l, 0 ≤ r.amount) :
    sumTxOuts (l.filter (fun r => r.amount > 0)) = sumTxOuts l := by
  induction l with
  | nil => rfl
  | cons r t ih =>
    have hr := h r (by simp)
    have iht := ih (fun s hs => h s (by simp [hs]))
    by_cases hp : r.amount > 0
    · rw [List.filter_cons_of_pos (by simpa using hp), sumTxOuts_cons,
        sumTxOuts_cons, iht]
    · have h0 : r.amount = 0 := le_antisymm (not_lt.mp hp) hr
      rw [List.filter_cons_of_neg (by simpa using hp), sumTxOuts_cons, iht, h0,
        zero_add]

theorem sumTxOuts_filter_pos_eq_eraseP (l : List TxOut)
    (hwf : ∀ r ∈ l, 0 ≤ r.amount ∨ r.amount = -1)
    (hcount : (l.filter (fun v => v.amount == -1)).length ≤ 1) :
    sumTxOuts (l.filter (fun r => r.amount > 0))
      = sumTxOuts (l.eraseP (fun v => v.amount == -1)) := by
  induction l with
  | nil => rfl
  | cons r t ih =>
    by_cases hs : (r.amount == (-1 : Int)) = true
    · have hr : r.amount = -1 := by simpa using hs
      simp only [List.eraseP_cons, hs, cond_true]
      rw [List.filter_cons_of_neg (by simp [hr])]
      have hft : t.filter (fun v => v.amount == -1) = [] := by
        simp only [List.filter_cons, hs, if_true, List.length_cons] at hcount
        have : (t.filter (fun v => v.amount == -1)).length = 0 := by omega
        exact List.length_eq_zero.mp this
      have ht : ∀ s ∈ t, 0 ≤ s.amount := by
        intro s hsm
        rcases hwf s (by simp [hsm]) with h | h
        · exact h
        · exfalso
          have hmem : s ∈ t.filter (fun v => v.amount == -1) :=
            List.mem_filter.mpr ⟨hsm, by simp [h]⟩
          rw [hft] at hmem
          cases hmem
      exact sumTxOuts_filter_pos_of_nonneg t ht
    · have hs2 : (r.amount == (-1 : Int)) = false := by
        simpa using hs
      simp only [List.eraseP_cons, hs2, cond_false]
      have hcount' : (t.filter (fun v => v.amount == -1)).length ≤ 1 := by
        simp only [List.filter_cons, hs2, Bool.false_eq_true, if_false] at hcount
        exact hcount
      have hwft : ∀ r ∈ t, 0 ≤ r.amount ∨ r.amount = -1 :=
        fun s hsm => hwf s (by simp [hsm])
      have iht := ih hwft hcount'
      by_cases hp : r.amount > 0
      · rw [List.filter_cons_of_pos (by simpa using hp), sumTxOuts_cons, iht,
          sumTxOuts_cons]
      · have h0 : r.amount = 0 := by
          rcases hwf r (by simp) with h | h
          · exact le_antisymm (not_lt.mp hp) h
          · exact absurd h (by simpa using hs)
        rw [List.filter_cons_of_neg (by simpa using hp), iht, sumTxOuts_cons,
          h0, zero_add]

theorem sumTxOuts_coin_change_txouts (change_address : String)
    (txins_db : SDict (List UTXOData)) (txouts_passed_db : SDict (List TxOut))
    (txouts_mint_db : SDict (List TxOut)) (fee : Int) (withdrawals : List TxOut)
    (deposit : Int) (treasury_donation : Int) (A : String)
    (h : 0 ≤ coin_change txins_db txouts_passed_db txouts_mint_db fee
        withdrawals deposit treasury_donation A) :
    sumTxOuts (coin_change_txouts change_address txins_db txouts_passed_db
        txouts_mint_db fee withdrawals deposit treasury_donation A)
      = coin_change txins_db txouts_passed_db txouts_mint_db fee withdrawals
          deposit treasury_donation A := by
  unfold coin_change_txouts
  by_cases hp : coin_change txins_db txouts_passed_db txouts_mint_db fee
      withdrawals deposit treasury_donation A > 0
  · rw [if_pos hp, sumTxOuts_cons, sumTxOuts_nil, add_zero]
  · rw [if_neg hp]
    rw [sumTxOuts_nil]
    omega

theorem burning_empty_of_wf (txouts : List TxOut)
    (hwf : ∀ r ∈ txouts, 0 ≤ r.amount ∨ (r.coin = DEFAULT_COIN ∧ r.amount = -1)) :
    txouts.filter (fun r => r.amount < 0 && r.coin != DEFAULT_COIN) = [] := by
  rw [List.filter_eq_nil_iff]
  intro r hr
  rcases hwf r hr with h | ⟨hc, _⟩
  · simp only [Bool.and_eq_true, decide_eq_true_eq, bne_iff_ne, not_and]
    intro hneg
    omega
  · simp only [Bool.and_eq_true, decide_eq_true_eq, bne_iff_ne, not_and]
    intro _ hne
    exact hne hc

theorem coin_txouts_of_organize (txouts : List TxOut) (A : String) :
    coin_txouts_of (organize_tx_ins_outs_by_coin txouts) A
      = txouts.filter (fun r => r.coin == A) := by
  unfold coin_txouts_of organize_tx_ins_outs_by_coin
  exact organize_by_key_getD _ _ _

-- Usable-UTxO scan invariants -----------------------------------------------

theorem sdictGet_mem {V : Type} (d : SDict V) (k : String) (v : V)
    (h : sdictGet d k = some v) : (k, v) ∈ d := by
  induction d with
  | nil => cases h
  | cons a d ih =>
    rw [sdictGet] at h
    by_cases ha : (a.1 == k) = true
    · rw [if_pos ha] at h
      injection h with h2
      have hk : a.1 = k := by simpa using ha
      have h3 : (k, v) = a := by
        rw [← hk, ← h2]
      rw [h3]
      exact List.mem_cons_self a d
    · rw [if_neg ha] at h
      exact List.mem_cons_of_mem a (ih h)

theorem mem_sdictSet {V : Type} (d : SDict V) (k : String) (v : V)
    (pr : String × V) (h : pr ∈ sdictSet d k v) : pr ∈ d ∨ pr = (k, v) := by
  induction d with
  | nil =>
    rw [sdictSet] at h
    rcases List.mem_singleton.mp h with h2
    exact Or.inr h2
  | cons a d ih =>
    rw [sdictSet] at h
    by_cases ha : (a.1 == k) = true
    · rw [if_pos ha] at h
      rcases List.mem_cons.mp h with h2 | h2
      · exact Or.inr h2
      · exact Or.inl (List.mem_cons_of_mem a h2)
    · rw [if_neg ha] at h
      rcases List.mem_cons.mp h with h2 | h2
      · exact Or.inl (by simp [h2])
      · rcases ih h2 with h3 | h3
        · exact Or.inl (List.mem_cons_of_mem a h3)
        · exact Or.inr h3

theorem organize_foldl_bucket_subset {α : Type} (key : α → String)
    (big : List α) :
    ∀ (lst : List α) (db : SDict (List α)),
      (∀ s ∈ lst, s ∈ big) →
      (∀ pr ∈ db, ∀ s ∈ pr.2, s ∈ big) →
      ∀ pr ∈ lst.foldl (organizeStep key) db, ∀ s ∈ pr.2, s ∈ big := by
  intro lst
  induction lst with
  | nil => intro db _ hdb pr hpr s hs; exact hdb pr hpr s hs
  | cons rec rest ih =>
    intro db hlst hdb pr hpr s hs
    refine ih (organizeStep key db rec) (fun t ht => hlst t (by simp [ht]))
      ?_ pr hpr s hs
    intro qr hqr t ht
    unfold organizeStep at hqr
    cases hg : sdictGet db (key rec) with
    | none =>
      rw [hg] at hqr
      rcases mem_sdictSet _ _ _ _ hqr with h2 | h2
      · exact hdb qr h2 t ht
      · rw [h2] at ht
        rcases List.mem_singleton.mp ht with h3
        rw [h3]
        exact hlst rec (by simp)
    | some l0 =>
      rw [hg] at hqr
      rcases mem_sdictSet _ _ _ _ hqr with h2 | h2
      · exact hdb qr h2 t ht
      · rw [h2] at ht
        rcases List.mem_append.mp ht with h3 | h3
        · exact hdb (key rec, l0) (sdictGet_mem _ _ _ hg) t h3
        · rw [List.mem_singleton.mp h3]
          exact hlst rec (by simp)

/-- Every bucket row of `organize_by_key` comes from the input list. -/
theorem organize_by_key_bucket_subset {α : Type} (key : α → String)
    (l : List α) (pr : String × List α) (hpr : pr ∈ organize_by_key key l)
    (s : α) (hs : s ∈ pr.2) : s ∈ l := by
  unfold organize_by_key at hpr
  exact organize_foldl_bucket_subset key l l [] (fun t ht => ht)
    (by intro q hq; cases hq) pr hpr s hs

/-- The witness a collected row owes its presence to: the row is one of the
address's rows, and some datum-free row with a required coin shares its
identity. -/
def usable_witness (address_utxos : List UTXOData) (coins : List String)
    (r : UTXOData) : Prop :=
  r ∈ address_utxos ∧ ∃ w ∈ address_utxos, utxoId w = utxoId r ∧
    w.coin ∈ coins ∧ w.datum_hash = "" ∧ w.inline_datum_hash = ""

theorem get_usable_loop_inv (address_utxos : List UTXOData)
    (coins : List String) :
    ∀ (lst : List UTXOData) (txins : List UTXOData) (seen : List String)
      (mwd : Bool),
      (∀ r ∈ lst, r ∈ address_utxos) →
      (∀ r ∈ txins, usable_witness address_utxos coins r) →
      ∀ r ∈ (get_usable_loop (organize_utxos_by_id address_utxos) coins lst
          txins seen mwd).1,
        usable_witness address_utxos coins r := by
  intro lst
  induction lst with
  | nil => intro txins seen mwd _ htx r hr; exact htx r hr
  | cons rec rest ih =>
    intro txins seen mwd hlst htx r hr
    rw [get_usable_loop] at hr
    by_cases h1 : (coins.contains rec.coin && !seen.contains (utxoId rec)) = true
    · rw [if_pos h1] at hr
      by_cases h2 : (rec.datum_hash != "" || rec.inline_datum_hash != "") = true
      · rw [if_pos h2] at hr
        exact ih _ _ _ (fun s hs => hlst s (by simp [hs])) htx r hr
      · rw [if_neg h2] at hr
        have hdat : rec.datum_hash = "" ∧ rec.inline_datum_hash = "" := by
          rw [Bool.or_eq_true] at h2
          push_neg at h2
          constructor
          · have h3 := h2.1
            simpa using h3
          · have h3 := h2.2
            simpa using h3
        have hcoin : rec.coin ∈ coins := by
          rw [Bool.and_eq_true] at h1
          exact (contains_eq_mem coins rec.coin).mp h1.1
        refine ih _ _ _ (fun s hs => hlst s (by simp [hs])) ?_ r hr
        intro s hsm
        rcases List.mem_append.mp hsm with hs | hs
        · exact htx s hs
        · have hbucket : s ∈ (sdictGet (organize_utxos_by_id address_utxos)
              (utxoId rec)).getD [] := hs
          unfold organize_utxos_by_id at hbucket
          rw [organize_by_key_getD] at hbucket
          rw [List.mem_filter] at hbucket
          refine ⟨hbucket.1, rec, hlst rec (by simp), ?_, hcoin, hdat.1, hdat.2⟩
          have := hbucket.2
          have h4 : utxoId s = utxoId rec := by simpa using this
          rw [h4]
    · rw [if_neg h1] at hr
      exact ih _ _ _ (fun s hs => hlst s (by simp [hs])) htx r hr

theorem get_usable_utxos_witness (address_utxos : List UTXOData)
    (coins : List String) (txins_all : List UTXOData)
    (h : get_usable_utxos address_utxos coins = Except.ok txins_all) :
    ∀ r ∈ txins_all, usable_witness address_utxos coins r := by
  intro r hr
  unfold get_usable_utxos at h
  dsimp only at h
  split at h
  · cases h
  · injection h with h2
    rw [← h2] at hr
    exact get_usable_loop_inv address_utxos coins address_utxos [] [] false
      (fun s hs => hs) (by intro s hs; cases hs) r hr

/-- Per-identity consistency of the datum markers: all asset rows of one UTxO
(one identity) agree on their datum-lock status, as the source ledger
guarantees (a datum belongs to the output, not to one of its asset rows). -/
def DatumConsistent (l : List UTXOData) : Prop :=
  ∀ r ∈ l, ∀ s ∈ l, utxoId r = utxoId s →
    r.datum_hash = s.datum_hash ∧ r.inline_datum_hash = s.inline_datum_hash

instance (l : List UTXOData) : Decidable (DatumConsistent l) := by
  unfold DatumConsistent
  infer_instance

theorem usable_row_clean (address_utxos : List UTXOData) (coins : List String)
    (r : UTXOData) (hcons : DatumConsistent address_utxos)
    (hw : usable_witness address_utxos coins r) :
    r.datum_hash = "" ∧ r.inline_datum_hash = "" := by
  obtain ⟨hrmem, w, hwmem, hid, _, hd, hi⟩ := hw
  have h := hcons w hwmem r hrmem hid
  exact ⟨h.1 ▸ hd, h.2 ▸ hi⟩

-- Per-coin selection targets ------------------------------------------------

/-- For the base coin without a send-all sentinel, the selection step runs the
per-coin selection with target
`max (outputs + max 1 fee + deposit + donation - withdrawals) (max 1 fee)`
and buffered target `target + min_change_value`. -/
theorem select_utxos_step_base_no_sentinel (tx : SDict (SDict Int))
    (passed mint : SDict (List TxOut)) (fee : Int) (wd : List TxOut)
    (mcv dep don : Int) (ids : List String)
    (hns : ∀ r ∈ (sdictGet passed DEFAULT_COIN).getD [], r.amount ≠ -1) :
    select_utxos_step tx passed mint fee wd mcv dep don ids DEFAULT_COIN
      = setUnion ids
          (select_utxos_per_coin ((sdictGet tx DEFAULT_COIN).getD [])
            DEFAULT_COIN
            (max (sumTxOuts ((sdictGet passed DEFAULT_COIN).getD [])
                + max 1 fee + dep + don - sumTxOuts wd) (max 1 fee))
            (max (sumTxOuts ((sdictGet passed DEFAULT_COIN).getD [])
                + max 1 fee + dep + don - sumTxOuts wd) (max 1 fee) + mcv)
            ids) := by
  have hany : ((sdictGet passed DEFAULT_COIN).getD []).any
      (fun v => v.amount == -1) = false := by
    rw [List.any_eq_false]
    intro r hr
    simpa using hns r hr
  have hne : max (sumTxOuts ((sdictGet passed DEFAULT_COIN).getD [])
      + max 1 fee + dep + don - sumTxOuts wd) (max 1 fee) ≠ 0 := by
    have h1 : (1 : Int) ≤ max 1 fee := le_max_left 1 fee
    have h2 : max 1 fee ≤ max (sumTxOuts ((sdictGet passed DEFAULT_COIN).getD [])
        + max 1 fee + dep + don - sumTxOuts wd) (max 1 fee) :=
      le_max_right _ _
    omega
  unfold select_utxos_step
  simp only [beq_self_eq_true, if_true, hany, Bool.false_eq_true, if_false,
    bne_iff_ne, ne_eq, hne, not_false_iff]

/-- For the base coin with a send-all sentinel among the requested outputs,
the selection step sweeps every candidate UTxO ID holding the base coin. -/
theorem select_utxos_step_base_sentinel (tx : SDict (SDict Int))
    (passed mint : SDict (List TxOut)) (fee : Int) (wd : List TxOut)
    (mcv dep don : Int) (ids : List String)
    (hsent : ((sdictGet passed DEFAULT_COIN).getD []).any
      (fun v => v.amount == -1) = true) :
    select_utxos_step tx passed mint fee wd mcv dep don ids DEFAULT_COIN
      = setUnion ids (((sdictGet tx DEFAULT_COIN).getD []).map
          (fun p => p.1)) := by
  unfold select_utxos_step
  simp only [beq_self_eq_true, if_true, hsent]

/-- For a non-base coin the selection step's target is
`requested outputs − minted`, with no dust-floor buffer; a zero target skips
selection entirely. -/
theorem select_utxos_step_token (tx : SDict (SDict Int))
    (passed mint : SDict (List TxOut)) (fee : Int) (wd : List TxOut)
    (mcv dep don : Int) (ids : List String) (c : String)
    (hc : c ≠ DEFAULT_COIN) :
    select_utxos_step tx passed mint fee wd mcv dep don ids c
      = (if sumTxOuts ((sdictGet passed c).getD [])
            - sumTxOuts ((sdictGet mint c).getD []) ≠ 0 then
          setUnion ids
            (select_utxos_per_coin ((sdictGet tx c).getD []) c
              (sumTxOuts ((sdictGet passed c).getD [])
                - sumTxOuts ((sdictGet mint c).getD []))
              (sumTxOuts ((sdictGet passed c).getD [])
                - sumTxOuts ((sdictGet mint c).getD []))
              ids)
        else ids) := by
  have hc2 : (c == DEFAULT_COIN) = false := by simpa using hc
  unfold select_utxos_step
  simp only [hc2, Bool.false_eq_true, if_false, bne_iff_ne, ne_eq]

-- Claim theorems ------------------------------------------------------------

/-- Claim C10: the reuse phase (`_pick_coins_from_already_selected_utxos`)
always returns an empty set of picked UTxO IDs — it contributes only the
accumulated amount and the met flag — so the per-asset selection result is
either empty (reuse phase met the target) or exactly the set picked by the
defragmentation phase. -/
theorem C10_reuse_phase_returns_no_ids (coin_txins : SDict Int)
    (already : List String) (c : String) (ta twc : Int) :
    (pick_coins_from_already_selected_utxos coin_txins already ta twc).1 = []
    ∧ (select_utxos_per_coin coin_txins c ta twc already = []
       ∨ select_utxos_per_coin coin_txins c ta twc already
          = setUnion []
              (pick_utxos_with_defragmentation
                (coin_txins.filter (fun p => !already.contains p.1)) ta twc
                (pick_coins_from_already_selected_utxos coin_txins already
                  ta twc).2.1).1) := by
  constructor
  · rfl
  · unfold select_utxos_per_coin
    dsimp only
    cases hm : (pick_coins_from_already_selected_utxos coin_txins already
        ta twc).2.2 with
    | true =>
      left
      rfl
    | false =>
      right
      rfl

/-- Claim C7 counterexample: with `skip_asset_balancing` set, a requested
output with a negative amount on a non-base asset is NOT simply stripped and
returned — the balancer raises its token-burning `AssertionError` before the
skip branch is reached. -/
theorem C7_skip_balancing_cex :
    balance_txouts "addr_change" [TxOut.mk "addr_x" (-5) "tokenT"] []
        (organize_tx_ins_outs_by_coin [TxOut.mk "addr_x" (-5) "tokenT"]) []
        0 [] 0 0 true
      = Except.error "Token burning is not allowed in txouts" := rfl

/-- Claim C7 (amended): with `skip_asset_balancing` set, PROVIDED no
requested output has a negative amount on a non-base asset, the balancer
returns the requested outputs with all non-positive amounts stripped and no
change computation and no logs. -/
theorem C7_skip_balancing_amended (change_address : String)
    (txouts : List TxOut) (txins_db : SDict (List UTXOData))
    (passed mint : SDict (List TxOut)) (fee : Int) (wd : List TxOut)
    (dep don : Int)
    (hnoburn : ∀ r ∈ txouts, r.amount < 0 → r.coin = DEFAULT_COIN) :
    balance_txouts change_address txouts txins_db passed mint fee wd dep don
        true
      = Except.ok (txouts.filter (fun r => r.amount > 0), []) := by
  have hb : txouts.filter (fun r => r.amount < 0 && r.coin != DEFAULT_COIN)
      = [] := by
    rw [List.filter_eq_nil_iff]
    intro r hr
    simp only [Bool.and_eq_true, decide_eq_true_eq, bne_iff_ne, not_and]
    intro hneg hne
    exact hne (hnoburn r hr hneg)
  unfold balance_txouts
  simp [hb]

/-- Witness for C7 (amended) at a concrete input: a positive and a
zero-amount output, the zero one stripped. -/
theorem C7_skip_balancing_witness :
    balance_txouts "a" [TxOut.mk "x" 5 "lovelace", TxOut.mk "y" 0 "tokenT"]
        [] [] [] 0 [] 0 0 true
      = Except.ok ([TxOut.mk "x" 5 "lovelace"], []) := by
  have h := C7_skip_balancing_amended "a"
    [TxOut.mk "x" 5 "lovelace", TxOut.mk "y" 0 "tokenT"] [] [] [] 0 [] 0 0
    (by decide)
  exact h

/-- Claim C8 counterexample: two rows sharing the same (identity, asset) pair
are NOT both retained by `_organize_utxos_by_coin_and_id`: the later row's
amount overwrites the earlier one (7 survives, 5 is lost, their sum 12 is
not). -/
theorem C8_row_loss_cex :
    organize_utxos_by_coin_and_id
        [UTXOData.mk "h" 0 5 "a" "tokenT" "" "",
         UTXOData.mk "h" 0 7 "a" "tokenT" "" ""]
      = [("tokenT", [("h#0", 7)])]
    ∧ sdictGet2 (organize_utxos_by_coin_and_id
        [UTXOData.mk "h" 0 5 "a" "tokenT" "" "",
         UTXOData.mk "h" 0 7 "a" "tokenT" "" ""]) "tokenT" "h#0" = some 7
    ∧ (5 : Int) + 7 ≠ 7 := ⟨rfl, rfl, by decide⟩

/-- Claim C8 (amended): the identity→rows and asset→rows groupings preserve
every row (each bucket is exactly the sublist of rows with that key, in
order), but the asset→(identity→amount) mapping keeps only the LAST row's
amount for a duplicate (identity, asset) pair — duplicates are collapsed,
not summed. -/
theorem C8_grouping_amended :
    (∀ (l : List TxOut) (k : String),
      (sdictGet (organize_tx_ins_outs_by_coin l) k).getD []
        = l.filter (fun r => r.coin == k))
    ∧ (∀ (l : List UTXOData) (k : String),
      (sdictGet (organize_txins_by_coin l) k).getD []
        = l.filter (fun r => r.coin == k))
    ∧ (∀ (l : List UTXOData) (k : String),
      (sdictGet (organize_utxos_by_id l) k).getD []
        = l.filter (fun r => utxoId r == k))
    ∧ (∀ (l : List UTXOData) (c uid : String),
      sdictGet2 (organize_utxos_by_coin_and_id l) c uid
        = ((l.filter (fun r => r.coin == c && utxoId r == uid)).getLast?).map
            (fun r => r.amount)) := by
  refine ⟨?_, ?_, ?_, ?_⟩
  · intro l k
    exact organize_by_key_getD _ _ _
  · intro l k
    exact organize_by_key_getD _ _ _
  · intro l k
    exact organize_by_key_getD _ _ _
  · intro l c uid
    exact organize_utxos_by_coin_and_id_get2 l c uid

/-- Claim C5: for the base asset without a send-all sentinel, the selection
step's target is
`max (requestedBaseOutputs + max 1 fee + deposit + donation − withdrawals) (max 1 fee)`
(the floor at `max 1 fee`), and the buffered target is the target plus
`min_change_value`. -/
theorem C5_base_target_formula (tx : SDict (SDict Int))
    (passed mint : SDict (List TxOut)) (fee : Int) (wd : List TxOut)
    (mcv dep don : Int) (ids : List String)
    (hns : ∀ r ∈ (sdictGet passed DEFAULT_COIN).getD [], r.amount ≠ -1) :
    select_utxos_step tx passed mint fee wd mcv dep don ids DEFAULT_COIN
      = setUnion ids
          (select_utxos_per_coin ((sdictGet tx DEFAULT_COIN).getD [])
            DEFAULT_COIN
            (max (sumTxOuts ((sdictGet passed DEFAULT_COIN).getD [])
                + max 1 fee + dep + don - sumTxOuts wd) (max 1 fee))
            (max (sumTxOuts ((sdictGet passed DEFAULT_COIN).getD [])
                + max 1 fee + dep + don - sumTxOuts wd) (max 1 fee) + mcv)
            ids) :=
  select_utxos_step_base_no_sentinel tx passed mint fee wd mcv dep don ids hns

/-- Witness for C5 at a concrete input: base output 3, fee 2, deposit 0,
donation 0, no withdrawals gives target `max (3+2) 2 = 5` and buffered
target 6. -/
theorem C5_base_target_formula_witness :
    select_utxos_step [("lovelace", [("u", 5)])]
        [("lovelace", [TxOut.mk "x" 3 "lovelace"])] [] 2 [] 1 0 0 []
        DEFAULT_COIN
      = setUnion []
          (select_utxos_per_coin [("u", 5)] DEFAULT_COIN 5 6 []) := by
  have h := C5_base_target_formula [("lovelace", [("u", 5)])]
    [("lovelace", [TxOut.mk "x" 3 "lovelace"])] [] 2 [] 1 0 0 [] (by decide)
  exact h

/-- Claim C6: when a requested base output uses the send-all sentinel, the
selection step sweeps every candidate ID holding the base asset, and the
full build on Scenario B (two inputs of 2,000,000 and 3,000,000, fee
300,000, one send-all output to Y) returns both inputs and the single
output (Y, 4,700,000) with no separate change output and no shortfall log. -/
theorem C6_send_all_sweep :
    (∀ (tx : SDict (SDict Int)) (passed mint : SDict (List TxOut)) (fee : Int)
        (wd : List TxOut) (mcv dep don : Int) (ids : List String),
      ((sdictGet passed DEFAULT_COIN).getD []).any (fun v => v.amount == -1)
          = true →
      select_utxos_step tx passed mint fee wd mcv dep don ids DEFAULT_COIN
        = setUnion ids (((sdictGet tx DEFAULT_COIN).getD []).map
            (fun p => p.1)))
    ∧ get_tx_ins_outs "S" [] [TxOut.mk "Y" (-1) "lovelace"] 300000 0 0 [] []
        [UTXOData.mk "a1" 0 2000000 "S" "lovelace" "" "",
         UTXOData.mk "a2" 0 3000000 "S" "lovelace" "" ""] 1000000 false
      = Except.ok
          ([UTXOData.mk "a1" 0 2000000 "S" "lovelace" "" "",
            UTXOData.mk "a2" 0 3000000 "S" "lovelace" "" ""],
           [TxOut.mk "Y" 4700000 "lovelace"], []) := by
  constructor
  · intro tx passed mint fee wd mcv dep don ids hsent
    exact select_utxos_step_base_sentinel tx passed mint fee wd mcv dep don
      ids hsent
  · rfl

/-- Witness for the sweep part of C6 at a concrete input: both base-coin
candidates are selected, regardless of targets. -/
theorem C6_send_all_sweep_witness :
    select_utxos_step [("lovelace", [("u1", 4), ("u2", 9)])]
        [("lovelace", [TxOut.mk "y" (-1) "lovelace"])] [] 1 [] 0 0 0 []
        DEFAULT_COIN
      = ["u1", "u2"] := by
  have h := C6_send_all_sweep.1 [("lovelace", [("u1", 4), ("u2", 9)])]
    [("lovelace", [TxOut.mk "y" (-1) "lovelace"])] [] 1 [] 0 0 0 [] (by decide)
  rw [h]
  rfl

/-- Claim C3 counterexample: token "tokenT" with requested output 50 and
minted 60 has target 50 − 60 = −10 ≤ 0, yet the engine still runs selection
for it and picks the candidate UTxO "u" — selection is skipped only for a
target of exactly 0, not for a negative one. -/
theorem C3_negative_target_selects_cex :
    select_utxos [("tokenT", [("u", 7)])]
        [("tokenT", [TxOut.mk "X" 50 "tokenT"])]
        [("tokenT", [TxOut.mk "M" 60 "tokenT"])] 0 [] 0 0 0 = ["u"]
    ∧ sumTxOuts ((sdictGet [("tokenT", [TxOut.mk "X" 50 "tokenT"])]
          "tokenT").getD [])
        - sumTxOuts ((sdictGet [("tokenT", [TxOut.mk "M" 60 "tokenT"])]
          "tokenT").getD []) = -10
    ∧ (-10 : Int) < 0 := ⟨rfl, rfl, by decide⟩

/-- Claim C3 (amended): for every non-base asset the selection step's target
is `totalRequestedOutputs − totalMinted` (with no dust buffer), and no input
selection is performed for the asset exactly when that target is 0; a
negative target is treated like any non-zero target and selection still
runs. -/
theorem C3_token_target_amended (tx : SDict (SDict Int))
    (passed mint : SDict (List TxOut)) (fee : Int) (wd : List TxOut)
    (mcv dep don : Int) (ids : List String) (c : String)
    (hc : c ≠ DEFAULT_COIN) :
    select_utxos_step tx passed mint fee wd mcv dep don ids c
      = (if sumTxOuts ((sdictGet passed c).getD [])
            - sumTxOuts ((sdictGet mint c).getD []) ≠ 0 then
          setUnion ids
            (select_utxos_per_coin ((sdictGet tx c).getD []) c
              (sumTxOuts ((sdictGet passed c).getD [])
                - sumTxOuts ((sdictGet mint c).getD []))
              (sumTxOuts ((sdictGet passed c).getD [])
                - sumTxOuts ((sdictGet mint c).getD []))
              ids)
        else ids)
    ∧ (sumTxOuts ((sdictGet passed c).getD [])
        - sumTxOuts ((sdictGet mint c).getD []) = 0 →
       select_utxos_step tx passed mint fee wd mcv dep don ids c = ids) := by
  have h1 := select_utxos_step_token tx passed mint fee wd mcv dep don ids c hc
  refine ⟨h1, ?_⟩
  intro h0
  rw [h1, if_neg (by simp [h0])]

/-- Witness for C3 (amended) at a concrete input (the spec's Scenario C):
token requested 50, minted 50, target 0 — no selection for the token. -/
theorem C3_token_target_witness :
    select_utxos_step [("tokenT", [("u", 7)])]
        [("tokenT", [TxOut.mk "X" 50 "tokenT"])]
        [("tokenT", [TxOut.mk "M" 50 "tokenT"])] 0 [] 0 0 0 [] "tokenT"
      = [] := by
  have h := C3_token_target_amended [("tokenT", [("u", 7)])]
    [("tokenT", [TxOut.mk "X" 50 "tokenT"])]
    [("tokenT", [TxOut.mk "M" 50 "tokenT"])] 0 [] 0 0 0 [] "tokenT" (by decide)
  exact h.2 (by decide)

theorem filter_pos_coin_comm (l : List TxOut) (A : String) :
    (l.filter (fun r => r.amount > 0)).filter (fun o => o.coin == A)
      = (l.filter (fun o => o.coin == A)).filter (fun r => r.amount > 0) := by
  rw [List.filter_filter, List.filter_filter]
  apply List.filter_congr
  intro a _
  exact Bool.and_comm _ _

/-- Claim C1 counterexample: a base-asset shortfall (available 100, needed
500, change −400) is NOT surfaced as a hard failure: `_balance_txouts`
returns normally (`Except.ok`) and only records the `LOGGER.error` emission;
execution continues with the requested outputs untouched. -/
theorem C1_shortfall_not_raised_cex :
    balance_txouts "S" [TxOut.mk "X" 500 "lovelace"]
        [("lovelace", [UTXOData.mk "h" 0 100 "S" "lovelace" "" ""])]
        (organize_tx_ins_outs_by_coin [TxOut.mk "X" 500 "lovelace"]) []
        0 [] 0 0 false
      = Except.ok ([TxOut.mk "X" 500 "lovelace"],
          [ShortfallLog.mk "lovelace" 100 500])
    ∧ coin_change [("lovelace", [UTXOData.mk "h" 0 100 "S" "lovelace" "" ""])]
        (organize_tx_ins_outs_by_coin [TxOut.mk "X" 500 "lovelace"]) []
        0 [] 0 0 "lovelace" = -400 := ⟨rfl, rfl⟩

/-- Claim C1 (amended): for every asset whose computed change is negative,
the balancer does not raise: it returns normally, emits an error-level log
carrying the available and needed totals (the per-iteration coin is recorded;
the source's base-coin message text contains only the two totals), and
synthesizes no change output for that asset — the negative change is dropped,
not clamped into an output. -/
theorem C1_shortfall_logged_amended (change_address : String)
    (txouts : List TxOut) (txins_db : SDict (List UTXOData))
    (passed_db mint_db : SDict (List TxOut)) (fee : Int) (wd : List TxOut)
    (dep don : Int) (A : String)
    (hnoburn : txouts.filter
      (fun r => r.amount < 0 && r.coin != DEFAULT_COIN) = [])
    (hsent : base_sentinel_count passed_db ≤ 1)
    (hA : A ∈ unionKeys (txins_db.map (fun p => p.1))
      (passed_db.map (fun p => p.1)) (mint_db.map (fun p => p.1)))
    (hneg : coin_change txins_db passed_db mint_db fee wd dep don A < 0) :
    ∃ outs logs,
      balance_txouts change_address txouts txins_db passed_db mint_db fee wd
          dep don false
        = Except.ok (outs, logs)
      ∧ ShortfallLog.mk A (coin_funds_available txins_db mint_db wd A)
          (coin_funds_needed passed_db fee dep don A) ∈ logs
      ∧ outs.filter (fun o => o.coin == A)
          = (txouts.filter (fun r => r.amount > 0)).filter
              (fun o => o.coin == A) := by
  have hloop := balance_loop_eq change_address txins_db passed_db mint_db fee
    wd dep don
    (unionKeys (txins_db.map (fun p => p.1)) (passed_db.map (fun p => p.1))
      (mint_db.map (fun p => p.1)))
    (txouts.filter (fun r => r.amount > 0), [])
    (fun c _ _ => hsent)
  refine ⟨txouts.filter (fun r => r.amount > 0)
      ++ ((unionKeys (txins_db.map (fun p => p.1))
          (passed_db.map (fun p => p.1))
          (mint_db.map (fun p => p.1))).map
        (coin_change_txouts change_address txins_db passed_db mint_db fee wd
          dep don)).flatten,
    [] ++ ((unionKeys (txins_db.map (fun p => p.1))
          (passed_db.map (fun p => p.1))
          (mint_db.map (fun p => p.1))).map
        (coin_shortfall_logs txins_db passed_db mint_db fee wd dep don)).flatten,
    ?_, ?_, ?_⟩
  · unfold balance_txouts
    simp only [hnoburn, List.isEmpty_nil, Bool.not_true, Bool.false_eq_true,
      if_false, Bool.not_false]
    exact hloop
  · rw [List.nil_append]
    apply List.mem_flatten.mpr
    refine ⟨coin_shortfall_logs txins_db passed_db mint_db fee wd dep don A,
      List.mem_map_of_mem _ hA, ?_⟩
    unfold coin_shortfall_logs
    rw [if_pos hneg]
    simp
  · rw [List.filter_append]
    rw [flatten_change_filter change_address txins_db passed_db mint_db fee wd
      dep don _ A hA (unionKeys_nodup _ _ _)]
    have hcc : coin_change_txouts change_address txins_db passed_db mint_db
        fee wd dep don A = [] := by
      unfold coin_change_txouts
      rw [if_neg (by omega)]
    rw [hcc, List.append_nil]

/-- Witness for C1 (amended) at a concrete input: available 100, needed 500
for the base coin; the log is present and no change output is clamped in. -/
theorem C1_shortfall_logged_witness :
    ∃ outs logs,
      balance_txouts "W" [TxOut.mk "X" 500 "lovelace"]
          [("lovelace", [UTXOData.mk "h" 0 100 "W" "lovelace" "" ""])]
          (organize_tx_ins_outs_by_coin [TxOut.mk "X" 500 "lovelace"]) []
          0 [] 0 0 false
        = Except.ok (outs, logs)
      ∧ ShortfallLog.mk "lovelace"
          (coin_funds_available
            [("lovelace", [UTXOData.mk "h" 0 100 "W" "lovelace" "" ""])] [] []
            "lovelace")
          (coin_funds_needed
            (organize_tx_ins_outs_by_coin [TxOut.mk "X" 500 "lovelace"]) 0 0 0
            "lovelace") ∈ logs
      ∧ outs.filter (fun o => o.coin == "lovelace")
          = ([TxOut.mk "X" 500 "lovelace"].filter
              (fun r => r.amount > 0)).filter
              (fun o => o.coin == "lovelace") :=
  C1_shortfall_logged_amended "W" [TxOut.mk "X" 500 "lovelace"]
    [("lovelace", [UTXOData.mk "h" 0 100 "W" "lovelace" "" ""])]
    (organize_tx_ins_outs_by_coin [TxOut.mk "X" 500 "lovelace"]) []
    0 [] 0 0 "lovelace" (by decide) (by decide) (by decide) (by decide)

/-- Claim C2 counterexample: a base-coin requested output with the negative
non-sentinel amount −2 is accepted by the balancer (only negative NON-base
amounts are rejected), is dropped from the result (only positive amounts
pass), yet still enters `funds_needed`; with one input of 10 the change is
12 ≥ 0 and the transaction does NOT conserve value: inputs total 10 but
outputs total 12. -/
theorem C2_conservation_cex :
    balance_txouts "S" [TxOut.mk "X" (-2) "lovelace"]
        [("lovelace", [UTXOData.mk "h" 0 10 "S" "lovelace" "" ""])]
        (organize_tx_ins_outs_by_coin [TxOut.mk "X" (-2) "lovelace"]) []
        0 [] 0 0 false
      = Except.ok ([TxOut.mk "S" 12 "lovelace"], [])
    ∧ 0 ≤ coin_change [("lovelace", [UTXOData.mk "h" 0 10 "S" "lovelace" "" ""])]
        (organize_tx_ins_outs_by_coin [TxOut.mk "X" (-2) "lovelace"]) []
        0 [] 0 0 "lovelace"
    ∧ sumUtxos ((sdictGet
          [("lovelace", [UTXOData.mk "h" 0 10 "S" "lovelace" "" ""])]
          "lovelace").getD [])
        + sumTxOuts ((sdictGet ([] : SDict (List TxOut)) "lovelace").getD [])
        + sumTxOuts ([] : List TxOut)
      ≠ sumTxOuts ([TxOut.mk "S" 12 "lovelace"].filter
          (fun o => o.coin == "lovelace")) + (0 + 0 + 0) :=
  ⟨rfl, by decide, by decide⟩

/-- Claim C2 (amended): value is conserved per asset PROVIDED every requested
amount is non-negative or the base-asset −1 sentinel (a negative non-sentinel
base amount silently breaks the equation, as the counterexample shows), the
fee is non-negative (as the data model requires), at most one sentinel is
present, and no base-asset amount is minted (the balancer ignores minted
amounts for the base asset): then for every asset `A` of the union with
non-negative computed change,
`inputs(A) + minted(A) + (A = base ? withdrawals : 0)
  = finalOutputs(A) + (A = base ? fee + deposit + donation : 0)`. -/
theorem C2_conservation_amended (change_address : String)
    (txouts : List TxOut) (txins_db : SDict (List UTXOData))
    (mint_db : SDict (List TxOut)) (fee : Int) (wd : List TxOut)
    (dep don : Int) (A : String)
    (hfee : 0 ≤ fee)
    (hwf : ∀ r ∈ txouts, 0 ≤ r.amount ∨ (r.coin = DEFAULT_COIN ∧ r.amount = -1))
    (hsent : base_sentinel_count (organize_tx_ins_outs_by_coin txouts) ≤ 1)
    (hmintbase : A = DEFAULT_COIN →
      sumTxOuts ((sdictGet mint_db A).getD []) = 0)
    (hA : A ∈ unionKeys (txins_db.map (fun p => p.1))
      ((organize_tx_ins_outs_by_coin txouts).map (fun p => p.1))
      (mint_db.map (fun p => p.1)))
    (hchg : 0 ≤ coin_change txins_db (organize_tx_ins_outs_by_coin txouts)
      mint_db fee wd dep don A) :
    ∃ outs logs,
      balance_txouts change_address txouts txins_db
          (organize_tx_ins_outs_by_coin txouts) mint_db fee wd dep don false
        = Except.ok (outs, logs)
      ∧ sumUtxos ((sdictGet txins_db A).getD [])
          + sumTxOuts ((sdictGet mint_db A).getD [])
          + (if A = DEFAULT_COIN then sumTxOuts wd else 0)
        = sumTxOuts (outs.filter (fun o => o.coin == A))
          + (if A = DEFAULT_COIN then fee + dep + don else 0) := by
  have hnoburn := burning_empty_of_wf txouts hwf
  have hloop := balance_loop_eq change_address txins_db
    (organize_tx_ins_outs_by_coin txouts) mint_db fee wd dep don
    (unionKeys (txins_db.map (fun p => p.1))
      ((organize_tx_ins_outs_by_coin txouts).map (fun p => p.1))
      (mint_db.map (fun p => p.1)))
    (txouts.filter (fun r => r.amount > 0), [])
    (fun c _ _ => hsent)
  refine ⟨txouts.filter (fun r => r.amount > 0)
      ++ ((unionKeys (txins_db.map (fun p => p.1))
          ((organize_tx_ins_outs_by_coin txouts).map (fun p => p.1))
          (mint_db.map (fun p => p.1))).map
        (coin_change_txouts change_address txins_db
          (organize_tx_ins_outs_by_coin txouts) mint_db fee wd dep
          don)).flatten,
    [] ++ ((unionKeys (txins_db.map (fun p => p.1))
          ((organize_tx_ins_outs_by_coin txouts).map (fun p => p.1))
          (mint_db.map (fun p => p.1))).map
        (coin_shortfall_logs txins_db (organize_tx_ins_outs_by_coin txouts)
          mint_db fee wd dep don)).flatten,
    ?_, ?_⟩
  · unfold balance_txouts
    simp only [hnoburn, List.isEmpty_nil, Bool.not_true, Bool.false_eq_true,
      if_false, Bool.not_false]
    exact hloop
  · rw [List.filter_append,
      flatten_change_filter change_address txins_db
        (organize_tx_ins_outs_by_coin txouts) mint_db fee wd dep don _ A hA
        (unionKeys_nodup _ _ _),
      sumTxOuts_append,
      sumTxOuts_coin_change_txouts change_address txins_db
        (organize_tx_ins_outs_by_coin txouts) mint_db fee wd dep don A hchg,
      filter_pos_coin_comm txouts A]
    have hreq := coin_txouts_of_organize txouts A
    by_cases hAD : A = DEFAULT_COIN
    · subst hAD
      rw [if_pos rfl, if_pos rfl]
      have hwl : ∀ r ∈ txouts.filter (fun r => r.coin == DEFAULT_COIN),
          0 ≤ r.amount ∨ r.amount = -1 := by
        intro r hr
        rcases hwf r (List.mem_of_mem_filter hr) with h | h
        · exact Or.inl h
        · exact Or.inr h.2
      have hcount : ((txouts.filter (fun r => r.coin == DEFAULT_COIN)).filter
          (fun v => v.amount == -1)).length ≤ 1 := by
        have h2 := hsent
        unfold base_sentinel_count at h2
        rw [hreq] at h2
        exact h2
      rw [sumTxOuts_filter_pos_eq_eraseP
        (txouts.filter (fun r => r.coin == DEFAULT_COIN)) hwl hcount]
      have hchg_eq : coin_change txins_db
          (organize_tx_ins_outs_by_coin txouts) mint_db fee wd dep don
          DEFAULT_COIN
          = sumUtxos ((sdictGet txins_db DEFAULT_COIN).getD [])
            + sumTxOuts wd
            - (sumTxOuts ((txouts.filter
                (fun r => r.coin == DEFAULT_COIN)).eraseP
                (fun v => v.amount == -1))
              + max 0 fee + dep + don) := by
        unfold coin_change coin_funds_available coin_funds_needed
        rw [hreq]
        simp
      rw [hchg_eq, max_eq_right hfee, hmintbase rfl]
      ring
    · rw [if_neg hAD, if_neg hAD]
      have hwl : ∀ r ∈ txouts.filter (fun r => r.coin == A), 0 ≤ r.amount := by
        intro r hr
        have hrc : r.coin = A := by simpa using List.of_mem_filter hr
        rcases hwf r (List.mem_of_mem_filter hr) with h | h
        · exact h
        · exact absurd (hrc.symm.trans h.1) hAD
      rw [sumTxOuts_filter_pos_of_nonneg _ hwl]
      have hA2 : (A == DEFAULT_COIN) = false := by simpa using hAD
      have hchg_eq : coin_change txins_db
          (organize_tx_ins_outs_by_coin txouts) mint_db fee wd dep don A
          = sumUtxos ((sdictGet txins_db A).getD [])
            + sumTxOuts ((sdictGet mint_db A).getD [])
            - sumTxOuts (txouts.filter (fun r => r.coin == A)) := by
        unfold coin_change coin_funds_available coin_funds_needed
        rw [hreq]
        simp [hA2]
      rw [hchg_eq]
      ring

/-- Witness for C2 (amended) at a concrete input (the spec's Scenario A
shape): one input of 5,000,000, one base output of 1,000,000, fee 200,000,
change 3,800,000; conservation holds for the base coin. -/
theorem C2_conservation_witness :
    ∃ outs logs,
      balance_txouts "S" [TxOut.mk "X" 1000000 "lovelace"]
          [("lovelace", [UTXOData.mk "hA" 0 5000000 "S" "lovelace" "" ""])]
          (organize_tx_ins_outs_by_coin [TxOut.mk "X" 1000000 "lovelace"]) []
          200000 [] 0 0 false
        = Except.ok (outs, logs)
      ∧ sumUtxos ((sdictGet
            [("lovelace", [UTXOData.mk "hA" 0 5000000 "S" "lovelace" "" ""])]
            "lovelace").getD [])
          + sumTxOuts ((sdictGet ([] : SDict (List TxOut)) "lovelace").getD [])
          + (if "lovelace" = DEFAULT_COIN then sumTxOuts ([] : List TxOut)
             else 0)
        = sumTxOuts (outs.filter (fun o => o.coin == "lovelace"))
          + (if "lovelace" = DEFAULT_COIN then 200000 + 0 + 0 else 0) :=
  C2_conservation_amended "S" [TxOut.mk "X" 1000000 "lovelace"]
    [("lovelace", [UTXOData.mk "hA" 0 5000000 "S" "lovelace" "" ""])] []
    200000 [] 0 0 "lovelace" (by decide) (by decide) (by decide)
    (fun _ => rfl) (by decide) (by decide)

/-- The base-coin `target_amount` of `_select_utxos` (cf. C5). -/
def base_target (passed_db : SDict (List TxOut)) (fee dep don : Int)
    (wd : List TxOut) : Int :=
  max (sumTxOuts (coin_txouts_of passed_db DEFAULT_COIN)
      + max 1 fee + dep + don - sumTxOuts wd) (max 1 fee)

/-- Claim C4 counterexample: the full build with fee 10, one base output of
90 (target 100, buffered target 150 with `min_change_value` 50) over the
single candidate of 120 synthesizes the positive base change 20, which is
BELOW the dust floor 50 — and the selection had not stopped on an exact
match (it ended unmet at 120 ≠ 100).  The over-shoot argument only covers
selections that reached the buffered target; an unmet selection can still
leave a positive sub-dust change. -/
theorem C4_dust_floor_cex :
    get_tx_ins_outs "S" [] [TxOut.mk "X" 90 "lovelace"] 10 0 0 [] []
        [UTXOData.mk "h" 0 120 "S" "lovelace" "" ""] 50 false
      = Except.ok ([UTXOData.mk "h" 0 120 "S" "lovelace" "" ""],
          [TxOut.mk "X" 90 "lovelace", TxOut.mk "S" 20 "lovelace"], [])
    ∧ (0 : Int) < 20 ∧ (20 : Int) < 50
    ∧ pick_utxos_with_defragmentation [("h#0", 120)] 100 150 0
        = (["h#0"], 120, false) := ⟨rfl, by decide, by decide, rfl⟩

/-- Claim C4 (amended): whenever the base-asset selection phases REPORT THE
TARGET MET with an accumulated amount different from the exact target (so
the stop was the buffered-target overshoot), and the balancer's base-coin
input total covers at least that accumulated amount, every change output the
balancer synthesizes for the base coin has amount ≥ `min_change_value`.
(The original claim, quantifying over every positive change without an exact
match, fails for unmet selections — see the counterexample.) -/
theorem C4_dust_floor_amended (change_address : String)
    (txins_db : SDict (List UTXOData)) (passed_db mint_db : SDict (List TxOut))
    (fee : Int) (wd : List TxOut) (dep don mcv : Int)
    (ctxins : SDict Int) (already : List String) (acc : Int)
    (hfee : 0 ≤ fee)
    (hns : ∀ r ∈ coin_txouts_of passed_db DEFAULT_COIN, r.amount ≠ -1)
    (hsel :
      (pick_coins_from_already_selected_utxos ctxins already
          (base_target passed_db fee dep don wd)
          (base_target passed_db fee dep don wd + mcv)).2 = (acc, true)
      ∨ ∃ acc1 p2,
          pick_coins_from_already_selected_utxos ctxins already
              (base_target passed_db fee dep don wd)
              (base_target passed_db fee dep don wd + mcv)
            = ([], acc1, false)
          ∧ pick_utxos_with_defragmentation
              (ctxins.filter (fun p => !already.contains p.1))
              (base_target passed_db fee dep don wd)
              (base_target passed_db fee dep don wd + mcv) acc1
            = (p2, acc, true))
    (hne : acc ≠ base_target passed_db fee dep don wd)
    (hcover : acc ≤ sumUtxos ((sdictGet txins_db DEFAULT_COIN).getD [])) :
    ∀ outs logs,
      balance_coin change_address txins_db passed_db mint_db fee wd dep don
          DEFAULT_COIN
        = Except.ok (outs, logs) →
      ∀ o ∈ outs, mcv ≤ o.amount := by
  -- the met flag forces the buffered target to have been reached
  have htwc : base_target passed_db fee dep don wd + mcv ≤ acc := by
    rcases hsel with hsel0 | ⟨acc1, p2, _, hdef⟩
    · have hfull : pick_coins_from_already_selected_utxos ctxins already
          (base_target passed_db fee dep don wd)
          (base_target passed_db fee dep don wd + mcv) = ([], acc, true) := by
        have h1 : pick_coins_from_already_selected_utxos ctxins already
            (base_target passed_db fee dep don wd)
            (base_target passed_db fee dep don wd + mcv)
            = ([], (pick_coins_from_already_selected_utxos ctxins already
                (base_target passed_db fee dep don wd)
                (base_target passed_db fee dep don wd + mcv)).2) := rfl
        rw [h1, hsel0]
      rcases pick_coins_met _ _ _ _ _ _ hfull with h | h
      · exact absurd h hne
      · exact h
    · rcases pick_utxos_with_defragmentation_met _ _ _ _ _ _ hdef with h | h
      · exact absurd h hne
      · exact h
  -- the balancer's base-coin outputs
  have hcount : base_sentinel_count passed_db ≤ 1 := by
    unfold base_sentinel_count
    have h0 : (coin_txouts_of passed_db DEFAULT_COIN).filter
        (fun v => v.amount == -1) = [] := by
      rw [List.filter_eq_nil_iff]
      intro r hr
      simpa using hns r hr
    rw [h0]
    simp
  intro outs logs hok o ho
  rw [balance_coin_eq change_address txins_db passed_db mint_db fee wd dep don
    DEFAULT_COIN (fun _ => hcount)] at hok
  injection hok with hok2
  injection hok2 with hout hlog
  rw [← hout] at ho
  unfold coin_change_txouts at ho
  by_cases hpos : coin_change txins_db passed_db mint_db fee wd dep don
      DEFAULT_COIN > 0
  · rw [if_pos hpos] at ho
    rcases List.mem_singleton.mp ho with h
    rw [h]
    -- it remains to bound the change from below
    have herase : (coin_txouts_of passed_db DEFAULT_COIN).eraseP
        (fun v => v.amount == -1) = coin_txouts_of passed_db DEFAULT_COIN :=
      List.eraseP_of_forall_not (fun r hr => by simpa using hns r hr)
    have hchg_eq : coin_change txins_db passed_db mint_db fee wd dep don
        DEFAULT_COIN
        = sumUtxos ((sdictGet txins_db DEFAULT_COIN).getD [])
          + sumTxOuts wd
          - (sumTxOuts (coin_txouts_of passed_db DEFAULT_COIN)
            + max 0 fee + dep + don) := by
      unfold coin_change coin_funds_available coin_funds_needed
      rw [herase]
      simp [coin_txouts_of]
    have h0fee : max 0 fee = fee := max_eq_right hfee
    have h1fee : fee ≤ max 1 fee := le_max_right 1 fee
    have hta : sumTxOuts (coin_txouts_of passed_db DEFAULT_COIN)
        + max 1 fee + dep + don - sumTxOuts wd
        ≤ base_target passed_db fee dep don wd := le_max_left _ _
    dsimp only
    rw [hchg_eq, h0fee]
    omega
  · rw [if_neg hpos] at ho
    cases ho

/-- Witness for C4 (amended) at a concrete input: target 100, buffer 150,
single candidate 160 picked by defragmentation (met, not exact), balancer
change 60 ≥ dust floor 50. -/
theorem C4_dust_floor_witness :
    balance_coin "S"
        [("lovelace", [UTXOData.mk "u" 0 160 "S" "lovelace" "" ""])]
        [("lovelace", [TxOut.mk "X" 90 "lovelace"])] [] 10 [] 0 0
        DEFAULT_COIN
      = Except.ok ([TxOut.mk "S" 60 "lovelace"], [])
    ∧ (50 : Int) ≤ (TxOut.mk "S" 60 "lovelace").amount := by
  refine ⟨rfl, ?_⟩
  exact C4_dust_floor_amended "S"
    [("lovelace", [UTXOData.mk "u" 0 160 "S" "lovelace" "" ""])]
    [("lovelace", [TxOut.mk "X" 90 "lovelace"])] [] 10 [] 0 0 50
    [("u1", 160)] [] 160 (by decide) (by decide)
    (Or.inr ⟨0, ["u1"], rfl, rfl⟩) (by decide) (by decide)
    [TxOut.mk "S" 60 "lovelace"] [] rfl (TxOut.mk "S" 60 "lovelace") (by simp)

/-- Claim C9 counterexample: asset "tokenT" is being burned (minted −50) and
its only candidate row is datum-locked, so after the datum filter no tokenT
input exists — yet the full build does NOT fail loudly: the coin-presence
check skips every minted coin, selection just logs a warning, the Balancer
just logs the shortfall, and the build returns `Except.ok`. -/
theorem C9_datum_skip_cex :
    get_tx_ins_outs "S" [] [TxOut.mk "X" 100 "lovelace"] 0 0 0 []
        [TxOut.mk "S" (-50) "tokenT"]
        [UTXOData.mk "h1" 0 1000000 "S" "lovelace" "" "",
         UTXOData.mk "h2" 0 50 "S" "tokenT" "dh" ""] 0 false
      = Except.ok ([UTXOData.mk "h1" 0 1000000 "S" "lovelace" "" ""],
          [TxOut.mk "X" 100 "lovelace", TxOut.mk "S" 999900 "lovelace"],
          [ShortfallLog.mk "tokenT" (-50) 0])
    ∧ (∀ r ∈ [UTXOData.mk "h1" 0 1000000 "S" "lovelace" "" "",
          UTXOData.mk "h2" 0 50 "S" "tokenT" "dh" ""],
        r.coin = "tokenT" → r.datum_hash ≠ "") := ⟨rfl, by decide⟩

/-- In auto-selection mode a successful build only uses rows that the
datum filter let through. -/
theorem get_tx_ins_outs_auto_ok (src_address : String) (txouts : List TxOut)
    (fee dep don : Int) (wd mint : List TxOut) (src_utxos : List UTXOData)
    (mcv : Int) (skip : Bool) (tins : List UTXOData) (touts : List TxOut)
    (logs : List ShortfallLog)
    (h : get_tx_ins_outs src_address [] txouts fee dep don wd mint src_utxos
        mcv skip = Except.ok (tins, touts, logs)) :
    ∃ txins_all,
      get_usable_utxos src_utxos
          (unionKeys [DEFAULT_COIN]
            ((organize_tx_ins_outs_by_coin mint).map (fun p => p.1))
            ((organize_tx_ins_outs_by_coin txouts).map (fun p => p.1)))
        = Except.ok txins_all
      ∧ ∀ r ∈ tins, r ∈ txins_all := by
  unfold get_tx_ins_outs at h
  simp only [List.isEmpty_nil, if_true, Bool.not_true, Bool.false_eq_true,
    if_false] at h
  cases hse : src_utxos.isEmpty with
  | true => rw [hse] at h; simp at h
  | false =>
    rw [hse] at h
    simp only [Bool.false_eq_true, if_false] at h
    cases heq : get_usable_utxos src_utxos
        (unionKeys [DEFAULT_COIN]
          ((organize_tx_ins_outs_by_coin mint).map (fun p => p.1))
          ((organize_tx_ins_outs_by_coin txouts).map (fun p => p.1))) with
    | error e => rw [heq] at h; simp at h
    | ok txins_all =>
      rw [heq] at h
      dsimp only at h
      refine ⟨txins_all, rfl, ?_⟩
      -- walk the remaining control flow of h
      by_cases hie : txins_all.isEmpty
      · rw [if_pos hie] at h; cases h
      · rw [if_neg hie] at h
        by_cases hck : (!(((DEFAULT_COIN :: (organize_tx_ins_outs_by_coin
            txouts).map (fun p => p.1)).filter
              (fun c => (sdictGet (organize_tx_ins_outs_by_coin mint)
                c).isNone)).all
            (fun c => (sdictGet (organize_utxos_by_coin_and_id txins_all)
              c).isSome))) = true
        · rw [if_pos hck] at h; cases h
        · rw [if_neg hck] at h
          by_cases hfe : (((organize_utxos_by_id txins_all).filter
              (fun p => (select_utxos (organize_utxos_by_coin_and_id txins_all)
                (organize_tx_ins_outs_by_coin txouts)
                (organize_tx_ins_outs_by_coin mint) fee wd mcv dep
                don).contains p.1)).map (fun p => p.2)).flatten.isEmpty
          · rw [if_pos hfe] at h; cases h
          · rw [if_neg hfe] at h
            cases hbal : balance_txouts src_address txouts
                (organize_txins_by_coin
                  (((organize_utxos_by_id txins_all).filter
                    (fun p => (select_utxos
                      (organize_utxos_by_coin_and_id txins_all)
                      (organize_tx_ins_outs_by_coin txouts)
                      (organize_tx_ins_outs_by_coin mint) fee wd mcv dep
                      don).contains p.1)).map (fun p => p.2)).flatten)
                (organize_tx_ins_outs_by_coin txouts)
                (organize_tx_ins_outs_by_coin mint) fee wd dep don skip with
            | error e => rw [hbal] at h; cases h
            | ok pr2 =>
              rw [hbal] at h
              obtain ⟨touts2, logs2⟩ := pr2
              dsimp only at h
              injection h with h2
              injection h2 with htins _
              intro r hr
              rw [← htins] at hr
              rcases List.mem_flatten.mp hr with ⟨l, hl, hrl⟩
              rcases List.mem_map.mp hl with ⟨prr, hprr, hlp⟩
              have hpr2 : prr ∈ organize_utxos_by_id txins_all :=
                List.mem_of_mem_filter hprr
              exact organize_by_key_bucket_subset utxoId txins_all prr hpr2 r
                (by rw [hlp]; exact hrl)

/-- In auto-selection mode, an asset that is a requested-output coin, is not
a minted coin, and whose candidate rows are all datum-locked makes the build
fail with an error. -/
theorem get_tx_ins_outs_locked_coin_error (src_address : String)
    (txouts : List TxOut) (fee dep don : Int) (wd mint : List TxOut)
    (src_utxos : List UTXOData) (mcv : Int) (skip : Bool) (A : String)
    (hcons : DatumConsistent src_utxos)
    (hout : ∃ r ∈ txouts, r.coin = A)
    (hmint : ∀ m ∈ mint, m.coin ≠ A)
    (hlocked : ∀ r ∈ src_utxos, r.coin = A →
      ¬(r.datum_hash = "" ∧ r.inline_datum_hash = "")) :
    ∃ e, get_tx_ins_outs src_address [] txouts fee dep don wd mint src_utxos
        mcv skip = Except.error e := by
  unfold get_tx_ins_outs
  simp only [List.isEmpty_nil, if_true, Bool.not_true, Bool.false_eq_true,
    if_false]
  cases hse : src_utxos.isEmpty with
  | true =>
    exact ⟨"No UTxO returned for the source address.", rfl⟩
  | false =>
    simp only [Bool.false_eq_true, if_false]
    cases heq : get_usable_utxos src_utxos
        (unionKeys [DEFAULT_COIN]
          ((organize_tx_ins_outs_by_coin mint).map (fun p => p.1))
          ((organize_tx_ins_outs_by_coin txouts).map (fun p => p.1))) with
    | error e => exact ⟨e, rfl⟩
    | ok txins_all =>
      dsimp only
      by_cases hie : txins_all.isEmpty
      · rw [if_pos hie]
        exact ⟨_, rfl⟩
      · rw [if_neg hie]
        have hwitness := get_usable_utxos_witness src_utxos _ txins_all heq
        have hnoA : ∀ r ∈ txins_all, r.coin ≠ A := by
          intro r hr hA
          have hw := hwitness r hr
          have hc := usable_row_clean src_utxos _ r hcons hw
          exact hlocked r hw.1 hA hc
        have hnone : sdictGet (organize_utxos_by_coin_and_id txins_all) A
            = none :=
          (organize_utxos_by_coin_and_id_get_none txins_all A).mpr hnoA
        have hmintnone : sdictGet (organize_tx_ins_outs_by_coin mint) A
            = none := by
          unfold organize_tx_ins_outs_by_coin
          rw [organize_by_key_get]
          have hnil : mint.filter (fun r => r.coin == A) = [] := by
            rw [List.filter_eq_nil_iff]
            intro m hm
            simpa using hmint m hm
          simp [hnil]
        have hApassed : A ∈ (organize_tx_ins_outs_by_coin txouts).map
            (fun p => p.1) := by
          unfold organize_tx_ins_outs_by_coin
          exact (organize_by_key_mem_keys _ _ _).mpr hout
        have hmemf : A ∈ (DEFAULT_COIN :: (organize_tx_ins_outs_by_coin
            txouts).map (fun p => p.1)).filter
            (fun c => (sdictGet (organize_tx_ins_outs_by_coin mint)
              c).isNone) := by
          apply List.mem_filter.mpr
          exact ⟨List.mem_cons_of_mem _ hApassed, by simp [hmintnone]⟩
        have hall : ((DEFAULT_COIN :: (organize_tx_ins_outs_by_coin
            txouts).map (fun p => p.1)).filter
            (fun c => (sdictGet (organize_tx_ins_outs_by_coin mint)
              c).isNone)).all
            (fun c => (sdictGet (organize_utxos_by_coin_and_id txins_all)
              c).isSome) = false := by
          cases hb : ((DEFAULT_COIN :: (organize_tx_ins_outs_by_coin
              txouts).map (fun p => p.1)).filter
              (fun c => (sdictGet (organize_tx_ins_outs_by_coin mint)
                c).isNone)).all
              (fun c => (sdictGet (organize_utxos_by_coin_and_id txins_all)
                c).isSome) with
          | false => rfl
          | true =>
            have hsome := List.all_eq_true.mp hb A hmemf
            rw [hnone] at hsome
            simp at hsome
        rw [if_pos (by rw [hall]; rfl)]
        exact ⟨_, rfl⟩

/-- Claim C9 (amended): in auto-selection, provided the datum markers are
consistent per identity (all rows of one UTxO agree, as in the source
ledger), (a) no auto-selected input row carries a datum lock; and (b) an
asset that appears among the requested outputs, is NOT among the minted
coins, and whose candidate rows are all datum-locked makes the build fail
loudly.  (For an asset that IS among the minted coins the build can succeed
with only a logged shortfall — see the counterexample — so the original
unqualified claim fails.) -/
theorem C9_datum_amended :
    (∀ (src_address : String) (txouts : List TxOut) (fee dep don : Int)
        (wd mint : List TxOut) (src_utxos : List UTXOData) (mcv : Int)
        (skip : Bool) (tins : List UTXOData) (touts : List TxOut)
        (logs : List ShortfallLog),
      DatumConsistent src_utxos →
      get_tx_ins_outs src_address [] txouts fee dep don wd mint src_utxos mcv
          skip = Except.ok (tins, touts, logs) →
      ∀ r ∈ tins, r.datum_hash = "" ∧ r.inline_datum_hash = "")
    ∧ (∀ (src_address : String) (txouts : List TxOut) (fee dep don : Int)
        (wd mint : List TxOut) (src_utxos : List UTXOData) (mcv : Int)
        (skip : Bool) (A : String),
      DatumConsistent src_utxos →
      (∃ r ∈ txouts, r.coin = A) →
      (∀ m ∈ mint, m.coin ≠ A) →
      (∀ r ∈ src_utxos, r.coin = A →
        ¬(r.datum_hash = "" ∧ r.inline_datum_hash = "")) →
      ∃ e, get_tx_ins_outs src_address [] txouts fee dep don wd mint src_utxos
          mcv skip = Except.error e) := by
  constructor
  · intro src_address txouts fee dep don wd mint src_utxos mcv skip tins touts
      logs hcons hok r hr
    obtain ⟨txins_all, husable, hsub⟩ := get_tx_ins_outs_auto_ok src_address
      txouts fee dep don wd mint src_utxos mcv skip tins touts logs hok
    exact usable_row_clean src_utxos _ r hcons
      (get_usable_utxos_witness _ _ _ husable r (hsub r hr))
  · intro src_address txouts fee dep don wd mint src_utxos mcv skip A hcons
      hout hmint hlocked
    exact get_tx_ins_outs_locked_coin_error src_address txouts fee dep don wd
      mint src_utxos mcv skip A hcons hout hmint hlocked

/-- Witness for C9 (amended) at concrete inputs: (a) a successful build over
one clean UTxO only uses datum-free rows; (b) a requested, unminted asset
whose only candidate is datum-locked makes the build error out. -/
theorem C9_datum_witness :
    ((UTXOData.mk "h1" 0 1000000 "S" "lovelace" "" "").datum_hash = ""
      ∧ (UTXOData.mk "h1" 0 1000000 "S" "lovelace" "" "").inline_datum_hash
          = "")
    ∧ (∃ e, get_tx_ins_outs "S" [] [TxOut.mk "X" 10 "tokenT"] 0 0 0 [] []
        [UTXOData.mk "h1" 0 1000000 "S" "lovelace" "" "",
         UTXOData.mk "h2" 0 50 "S" "tokenT" "dh" ""] 0 false
      = Except.error e) := by
  constructor
  · exact C9_datum_amended.1 "S" [TxOut.mk "X" 100 "lovelace"] 0 0 0 [] []
      [UTXOData.mk "h1" 0 1000000 "S" "lovelace" "" ""] 0 false
      [UTXOData.mk "h1" 0 1000000 "S" "lovelace" "" ""]
      [TxOut.mk "X" 100 "lovelace", TxOut.mk "S" 999900 "lovelace"] []
      (by decide) rfl
      (UTXOData.mk "h1" 0 1000000 "S" "lovelace" "" "") (by simp)
  · exact C9_datum_amended.2 "S" [TxOut.mk "X" 10 "tokenT"] 0 0 0 [] []
      [UTXOData.mk "h1" 0 1000000 "S" "lovelace" "" "",
       UTXOData.mk "h2" 0 50 "S" "tokenT" "dh" ""] 0 false "tokenT"
      (by decide) ⟨TxOut.mk "X" 10 "tokenT", by decide, rfl⟩ (by decide)
      (by decide)
